import Mathlib

/-!
# syspapi sampler: a shallow embedding of `ldms/src/sampler/syspapi/syspapi.c`

The plugin keeps an ordered list of counters (`mlist`), one per configured
event name.  Each counter owns one perf file descriptor per CPU (`pfd`).
The embedding models

* C strings as lists of `char`s (without the terminating NUL),
* the `TAILQ` of counters as a `List`, visited head to tail,
* the flexible array `pfd[]` as a `List Int` (`calloc` gives it `NCPU` entries),
* every library / system call as a field of an environment `Env`; calls made
  once per (counter, CPU) pair in a pass are keyed by the counter's position
  in the list and the CPU index,
* the effects that leave the plugin (descriptors opened and closed, reads,
  values written to the set) as returned traces,
* `errno` after a failed call as a positive number (`Errno`).

Diagnostics (`msglog`, `ldmsd_lerror`, `ldmsd_log`) have no effect on the
state and are left out.
-/

namespace Syspapi

/-- A C string: its `char`s in order, the terminating NUL left out. -/
abbrev CStr := List Char

/-! ## Constants of the platform headers (Linux `errno.h`, `papi.h`) -/

def ENOENT : Int := 2
def ENOMEM : Int := 12
def EINVAL : Int := 22
def EMFILE : Int := 24
def ENAMETOOLONG : Int := 36
def ENODATA : Int := 61
def ENOTSUP : Int := 95
def PAPI_OK : Int := 0

/-- Size of the `papi_name` and `pfm_name` buffers (`char papi_name[256]`). -/
def NAME_BUF : Nat := 256

/-- The string literal `"perf_event"`. -/
def PERF_EVENT : CStr := "perf_event".toList

/-- The string literal `"NOT_DERIVED"`. -/
def NOT_DERIVED : CStr := "NOT_DERIVED".toList

/-- The string literal `"schema"`. -/
def SCHEMA_KEY : CStr := "schema".toList

/-- The string literal `"events"`. -/
def EVENTS_KEY : CStr := "events".toList

/-- The value `errno` holds after a failed call: a positive error number. -/
structure Errno where
  code : Nat
  pos : 0 < code
  deriving DecidableEq

/-! ## Data model -/

/-- The fields of `PAPI_event_info_t` that the sampler reads. -/
structure PAPI_event_info_t where
  component_index : Int
  symbol : CStr
  derived : CStr
  count : Nat
  name : List CStr
  deriving DecidableEq

/-- The fields of `PAPI_component_info_t` that the sampler reads. -/
structure PAPI_component_info_t where
  name : CStr
  disabled : Int
  deriving DecidableEq

/-- The contents of a `struct perf_event_attr`, kept abstract; `0` is the
zeroed structure. -/
abbrev perf_event_attr := Nat

/-- The counter record `struct syspapi_metric_s`. -/
structure syspapi_metric_s where
  midx : Int
  init_rc : Int
  attr : perf_event_attr
  papi_name : CStr
  pfm_name : CStr
  pfd : List Int
  deriving DecidableEq

/-- Outcome of one `perf_event_open` call: a descriptor, or `-1` with `errno`. -/
inductive OpenOutcome where
  | fd (n : Nat)
  | fail (e : Errno)
  deriving DecidableEq

/-- Outcome of one `read(fd, &v, 8)` call: `-1` with `errno` and the buffer
untouched, or the bytes delivered into the start of the buffer (at most 8 of
them are stored). -/
inductive ReadOutcome where
  | err (e : Errno)
  | data (bytes : List Nat)
  deriving DecidableEq

/-- Modelled from the spec: the parse tree of the configuration-parse
collaborator (`json/json_util.h` is not part of the source tree):
string, list, dictionary, or any other kind of node. -/
inductive json_entity where
  | str (s : CStr)
  | list (items : List json_entity)
  | dict (attrs : List (CStr × json_entity))
  | other

/-- The part of `base_data_t` the sampler touches. -/
structure base_data where
  schema_name : Option CStr
  deriving DecidableEq

/-- An `ldms_schema_t` / `ldms_set_t`: the names of its columns, in index order. -/
abbrev ldms_schema := List CStr

/-- Everything outside the plugin: PAPI, libpfm, libc, the JSON parser, the
sampler base and the LDMS schema builder. -/
structure Env where
  /-- `PAPI_event_name_to_code(name, &code)`: return code and `code`. -/
  PAPI_event_name_to_code : CStr → Int × Nat
  /-- `PAPI_get_event_info(code, &info)`: return code and `info`. -/
  PAPI_get_event_info : Nat → Int × PAPI_event_info_t
  PAPI_get_component_info : Int → PAPI_component_info_t
  /-- `pfm_get_os_event_encoding(name, PFM_PLM0|PFM_PLM3, PFM_OS_PERF_EVENT, &arg)`
  on a zeroed attribute: return code and the attribute it leaves. -/
  pfm_get_os_event_encoding : CStr → Int × perf_event_attr
  /-- Whether the `calloc` of a counter succeeds, given how many are registered. -/
  calloc_ok : Nat → Bool
  /-- `perf_event_open(&m->attr, -1, cpu, -1, 0)` for the counter at a list position. -/
  perf_event_open : Nat → Nat → OpenOutcome
  /-- `read(m->pfd[cpu], &v, sizeof(v))` for the counter at a list position. -/
  read : Nat → Nat → ReadOutcome
  /-- Opening, reading and parsing the file at a path: the error code left in
  `rc`, or the parse tree. -/
  json_load : CStr → Except Errno json_entity
  strdup_ok : Bool
  /-- `base_config(avl, ...)`: `NULL` with `errno`, or the base data. -/
  base_config : Except Errno base_data
  /-- `base_schema_new(base)`: `NULL` with `errno`, or the base schema. -/
  base_schema_new : Except Errno ldms_schema
  /-- The error with which the schema builder refuses a column, if it does. -/
  schema_add_refuses : ldms_schema → CStr → Option Errno
  /-- `base_set_new(base)`: `NULL` with `errno` (`some`), or success (`none`). -/
  base_set_new : Option Errno

/-- The plugin's file-scope variables. -/
structure Plugin where
  set : Option ldms_schema
  mlist : List syspapi_metric_s
  metric_offset : Int
  base : Option base_data
  deriving DecidableEq

/-! ## Event resolver: `syspapi_metric_init` -/

/-- The macro `IS_PRESET(code)` of `papi.h`: the preset bit (31, `PAPI_PRESET_MASK`)
is set and the native bit (30, `PAPI_NATIVE_MASK`) is clear; `papi_code` is the
bit pattern of the `int`. -/
def IS_PRESET (papi_code : Nat) : Bool :=
  (papi_code / 2 ^ 31) % 2 == 1 && !((papi_code / 2 ^ 30) % 2 == 1)

/-- The macro `IS_NATIVE(code)` of `papi.h`: the native bit (30) is set and the
preset bit (31) is clear. -/
def IS_NATIVE (papi_code : Nat) : Bool :=
  (papi_code / 2 ^ 30) % 2 == 1 && !((papi_code / 2 ^ 31) % 2 == 1)

/-- `snprintf(buf, sizeof(buf), "%s", s)` into a 256-byte buffer: what the
buffer holds afterwards. -/
def snprintf_buf (s : CStr) : CStr := s.take (NAME_BUF - 1)

/-- Lines 194-225 of `syspapi_metric_init`: the native name to encode, or the
error code returned. -/
def select_pfm_name (papi_code : Nat) (papi_info : PAPI_event_info_t) : Except Int CStr :=
  if IS_PRESET papi_code then
    if papi_info.derived ≠ NOT_DERIVED then .error ENOTSUP
    else
      match papi_info.count with
      | 0 => .error ENODATA
      | 1 => .ok (papi_info.name.headD [])
      | _ => .error ENOTSUP
  else if IS_NATIVE papi_code then .ok papi_info.symbol
  else .error EINVAL

/-- The loop `for (i = 0; i < NCPU; i++) m->pfd[i] = -1;`. -/
def pfd_reset (NCPU : Nat) (pfd : List Int) : List Int :=
  (List.range NCPU).foldl (fun p i => p.set i (-1)) pfd

/-- `syspapi_metric_init(m, papi_name)`: the return code and the record. -/
def syspapi_metric_init (env : Env) (NCPU : Nat) (m : syspapi_metric_s)
    (papi_name : CStr) : Int × syspapi_metric_s :=
  let m1 := { m with papi_name := snprintf_buf papi_name }
  if NAME_BUF ≤ papi_name.length then (ENAMETOOLONG, m1)
  else
    let m2 := { m1 with midx := -1, pfd := pfd_reset NCPU m1.pfd }
    let r1 := env.PAPI_event_name_to_code papi_name
    if r1.1 ≠ PAPI_OK then (-1, m2)
    else
      let r2 := env.PAPI_get_event_info r1.2
      if r2.1 ≠ PAPI_OK then (-1, m2)
      else
        let comp_info := env.PAPI_get_component_info r2.2.component_index
        if PERF_EVENT ≠ comp_info.name then (EINVAL, m2)
        else if comp_info.disabled ≠ 0 then (ENODATA, m2)
        else
          match select_pfm_name r1.2 r2.2 with
          | .error e => (e, m2)
          | .ok pfm_name =>
            let r3 := env.pfm_get_os_event_encoding pfm_name
            (r3.1, { m2 with pfm_name := snprintf_buf pfm_name, attr := r3.2 })

/-! ## Registry: `syspapi_metric_add`, `populate_mlist` -/

/-- The record `calloc(1, sizeof(*m) + NCPU*sizeof(int))` returns: all zero. -/
def calloc_metric (NCPU : Nat) : syspapi_metric_s :=
  { midx := 0, init_rc := 0, attr := 0, papi_name := [], pfm_name := [],
    pfd := List.replicate NCPU 0 }

/-- The counter `syspapi_metric_add` appends for a name. -/
def new_metric (env : Env) (NCPU : Nat) (name : CStr) : syspapi_metric_s :=
  let r := syspapi_metric_init env NCPU (calloc_metric NCPU) name
  { r.2 with init_rc := r.1 }

/-- `syspapi_metric_add(name, mlist)`. -/
def syspapi_metric_add (env : Env) (NCPU : Nat) (name : CStr)
    (mlist : List syspapi_metric_s) : Int × List syspapi_metric_s :=
  if env.calloc_ok mlist.length then (0, mlist ++ [new_metric env NCPU name])
  else (ENOMEM, mlist)

/-- Skipping the leading delimiters, as `strtok_r` does first. -/
def skip_delim : CStr → CStr
  | [] => []
  | c :: cs => if c = ',' then skip_delim cs else c :: cs

/-- Scanning a token up to the next delimiter: the token and what follows the
delimiter (the saved pointer). -/
def scan_token : CStr → CStr × CStr
  | [] => ([], [])
  | c :: cs => if c = ',' then ([], cs) else ((scan_token cs).1.cons c, (scan_token cs).2)

/-- `strtok_r(s, ",", &ptr)` on the text `s` still to be scanned: `none` for
`NULL`, else the token and the text left for the next call. -/
def strtok_r (s : CStr) : Option (CStr × CStr) :=
  match skip_delim s with
  | [] => none
  | c :: cs => some (scan_token (c :: cs))

/-- The `while (tkn)` loop of `populate_mlist`, on the text still to be
scanned; each round consumes at least one `char`, which bounds the rounds. -/
def populate_loop (env : Env) (NCPU : Nat) :
    Nat → CStr → List syspapi_metric_s → Int × List syspapi_metric_s
  | 0, _, mlist => (0, mlist)
  | fuel + 1, s, mlist =>
    match strtok_r s with
    | none => (0, mlist)
    | some (tkn, rest) =>
      let r := syspapi_metric_add env NCPU tkn mlist
      if r.1 ≠ 0 then r else populate_loop env NCPU fuel rest r.2

/-- `populate_mlist(events, mlist)`. -/
def populate_mlist (env : Env) (NCPU : Nat) (events : CStr)
    (mlist : List syspapi_metric_s) : Int × List syspapi_metric_s :=
  populate_loop env NCPU (events.length + 1) events mlist

/-! ## Counter acquisition: `syspapi_close`, `syspapi_open` -/

/-- The entry `pfd[i]` of a counter's descriptor array. -/
def pfd_at (pfd : List Int) (i : Nat) : Int := pfd.getD i 0

/-- The inner loop of `syspapi_close` over the CPU indices still to visit:
the array afterwards and the descriptors passed to `close`, in order. -/
def close_cpus : List Nat → List Int → List Int × List Int
  | [], pfd => (pfd, [])
  | i :: is, pfd =>
    if pfd_at pfd i < 0 then close_cpus is pfd
    else ((close_cpus is (pfd.set i (-1))).1, pfd_at pfd i :: (close_cpus is (pfd.set i (-1))).2)

/-- `syspapi_close(mlist)`: the list afterwards and the descriptors closed. -/
def syspapi_close (NCPU : Nat) : List syspapi_metric_s → List syspapi_metric_s × List Int
  | [] => ([], [])
  | m :: ms =>
    ({ m with pfd := (close_cpus (List.range NCPU) m.pfd).1 } :: (syspapi_close NCPU ms).1,
      (close_cpus (List.range NCPU) m.pfd).2 ++ (syspapi_close NCPU ms).2)

/-- What the inner loop of `syspapi_open` leaves for one counter. -/
structure OpenCpus where
  pfd : List Int
  /-- CPU indices on which `perf_event_open` was called, in call order. -/
  tried : List Nat
  /-- The `errno` that aborts the pass, when one does. -/
  abort : Option Int
  deriving DecidableEq

/-- The inner loop of `syspapi_open` for one counter, over the CPU indices
still to visit. -/
def open_cpus (perf : Nat → OpenOutcome) : List Nat → List Int → OpenCpus
  | [], pfd => { pfd := pfd, tried := [], abort := none }
  | i :: is, pfd =>
    match perf i with
    | .fd n =>
      let r := open_cpus perf is (pfd.set i n)
      { r with tried := i :: r.tried }
    | .fail e =>
      if (e.code : Int) = EMFILE then
        { pfd := pfd.set i (-1), tried := [i], abort := some e.code }
      else
        let r := open_cpus perf is (pfd.set i (-1))
        { r with tried := i :: r.tried }

/-- What `syspapi_open` returns and does. -/
structure OpenResult where
  rc : Int
  mlist : List syspapi_metric_s
  /-- The (counter position, CPU) pairs on which `perf_event_open` was called. -/
  attempts : List (Nat × Nat)
  /-- The descriptors passed to `close`, in order. -/
  closed : List Int
  deriving DecidableEq

/-- The outer loop of `syspapi_open`: `c` is the position of the counter at
the head of `todo`, `done` the counters already visited. -/
def syspapi_open_loop (env : Env) (NCPU : Nat) :
    Nat → List syspapi_metric_s → List syspapi_metric_s → OpenResult
  | _, done, [] => { rc := 0, mlist := done, attempts := [], closed := [] }
  | c, done, m :: todo =>
    if m.init_rc ≠ 0 then syspapi_open_loop env NCPU (c + 1) (done ++ [m]) todo
    else
      let r := open_cpus (env.perf_event_open c) (List.range NCPU) m.pfd
      match r.abort with
      | some rc =>
        let cl := syspapi_close NCPU (done ++ { m with pfd := r.pfd } :: todo)
        { rc := rc, mlist := cl.1, attempts := r.tried.map (fun i => (c, i)), closed := cl.2 }
      | none =>
        let rest := syspapi_open_loop env NCPU (c + 1) (done ++ [{ m with pfd := r.pfd }]) todo
        { rest with attempts := r.tried.map (fun i => (c, i)) ++ rest.attempts }

/-- `syspapi_open(mlist)`. -/
def syspapi_open (env : Env) (NCPU : Nat) (mlist : List syspapi_metric_s) : OpenResult :=
  syspapi_open_loop env NCPU 0 [] mlist

/-! ## Configuration: `handle_cfg_file`, `create_metric_set`, `config` -/

/-- Modelled from the spec: `findAttribute(tree, name)` followed by taking the
attribute's value (`json_attr_find`, `json_attr_value` of `json_util`, which is
not part of the source tree): the value of the first attribute of that name
of a dictionary, nothing otherwise. -/
def json_attr_find (json : json_entity) (name : CStr) : Option json_entity :=
  match json with
  | .dict attrs => (attrs.find? (fun a => a.1 == name)).map (fun a => a.2)
  | _ => none

/-- The `while (event)` loop of `handle_cfg_file` over the items of `events`. -/
def cfg_events_loop (env : Env) (NCPU : Nat) :
    List json_entity → List syspapi_metric_s → Int × List syspapi_metric_s
  | [], mlist => (0, mlist)
  | .str s :: evs, mlist =>
    let r := syspapi_metric_add env NCPU s mlist
    if r.1 ≠ 0 then r else cfg_events_loop env NCPU evs r.2
  | _ :: _, mlist => (EINVAL, mlist)

/-- The `schema` step of `handle_cfg_file` (lines 416-433). -/
def cfg_schema_step (env : Env) (json : json_entity) (st : Plugin) : Int × Plugin :=
  match json_attr_find json SCHEMA_KEY with
  | none => (0, st)
  | some (.str s) =>
    if env.strdup_ok then
      (0, { st with base := st.base.map (fun b => { b with schema_name := some s }) })
    else
      (ENOMEM, { st with base := st.base.map (fun b => { b with schema_name := none }) })
  | some _ => (EINVAL, st)

/-- `handle_cfg_file(self, cfg_file)`. -/
def handle_cfg_file (env : Env) (NCPU : Nat) (cfg_file : CStr) (st : Plugin) : Int × Plugin :=
  match env.json_load cfg_file with
  | .error e => (e.code, st)
  | .ok json =>
    let r := cfg_schema_step env json st
    if r.1 ≠ 0 then r
    else
      match json_attr_find json EVENTS_KEY with
      | none => (ENOENT, r.2)
      | some (.list items) =>
        let l := cfg_events_loop env NCPU items r.2.mlist
        (l.1, { r.2 with mlist := l.2 })
      | some _ => (EINVAL, r.2)

/-- Modelled from the spec: `addArrayColumn` of the schema collaborator
(`ldms_schema_metric_array_add`, whose code is not part of the source tree):
it appends one column and returns its index, the number of columns present
before the call, or returns a negated `errno` and adds nothing. -/
def ldms_schema_metric_array_add (env : Env) (schema : ldms_schema) (name : CStr) :
    Int × ldms_schema :=
  match env.schema_add_refuses schema name with
  | some e => (-(e.code : Int), schema)
  | none => (schema.length, schema ++ [name])

/-- The `TAILQ_FOREACH` of `create_metric_set`: `0` and the counters with
their `midx` set, or the positive error code with the counters visited so far
updated; the schema as the builder leaves it. -/
def add_columns (env : Env) :
    ldms_schema → List syspapi_metric_s → Int × ldms_schema × List syspapi_metric_s
  | schema, [] => (0, schema, [])
  | schema, m :: ms =>
    let r := ldms_schema_metric_array_add env schema m.papi_name
    if r.1 < 0 then (-r.1, r.2, m :: ms)
    else
      let rs := add_columns env r.2 ms
      (rs.1, rs.2.1, { m with midx := r.1 } :: rs.2.2)

/-- `create_metric_set(base)`. -/
def create_metric_set (env : Env) (st : Plugin) : Int × Plugin :=
  match env.base_schema_new with
  | .error e => (e.code, st)
  | .ok schema =>
    let r := add_columns env schema st.mlist
    let st1 := { st with metric_offset := schema.length, mlist := r.2.2 }
    if r.1 ≠ 0 then (r.1, st1)
    else
      match env.base_set_new with
      | some e => (e.code, st1)
      | none => (0, { st1 with set := some r.2.1 })

/-- What `config` returns and does. -/
structure ConfigResult where
  rc : Int
  st : Plugin
  attempts : List (Nat × Nat)
  closed : List Int
  deriving DecidableEq

/-- `config(self, kwl, avl)`; `cfg_file` and `events` are the values
`av_value` finds for these keys (`none` for `NULL`). -/
def config (env : Env) (NCPU : Nat) (cfg_file events : Option CStr) (st : Plugin) :
    ConfigResult :=
  if st.set.isSome then { rc := EINVAL, st := st, attempts := [], closed := [] }
  else if events.isNone && cfg_file.isNone then
    { rc := EINVAL, st := st, attempts := [], closed := [] }
  else
    match env.base_config with
    | .error e => { rc := e.code, st := { st with base := none }, attempts := [], closed := [] }
    | .ok b =>
      let st1 := { st with base := some b }
      let r1 : Int × Plugin := match cfg_file with
        | some f => handle_cfg_file env NCPU f st1
        | none => (0, st1)
      if r1.1 ≠ 0 then { rc := r1.1, st := r1.2, attempts := [], closed := [] }
      else
        let r2 : Int × List syspapi_metric_s := match events with
          | some ev => populate_mlist env NCPU ev r1.2.mlist
          | none => (0, r1.2.mlist)
        if r2.1 ≠ 0 then
          { rc := r2.1, st := { r1.2 with mlist := r2.2 }, attempts := [], closed := [] }
        else
          let r3 := syspapi_open env NCPU r2.2
          if r3.rc ≠ 0 then
            { rc := r3.rc, st := { r1.2 with mlist := r3.mlist },
              attempts := r3.attempts, closed := r3.closed }
          else
            let r4 := create_metric_set env { r1.2 with mlist := r3.mlist }
            { rc := r4.1, st := r4.2, attempts := r3.attempts, closed := r3.closed }

/-! ## Sampling: `sample` -/

/-- What a sample pass does, in order. -/
inductive SampleEv where
  | sample_begin
  | read (fd : Int)
  | array_set_u64 (midx : Int) (i : Nat) (v : Nat)
  | sample_end
  deriving DecidableEq

/-- The `uint64_t` held by an 8-byte buffer that was zero and then received
the given bytes at its start (low byte first, as on the hosts perf runs on;
the value is zero exactly when every stored byte is, in any byte order). -/
def buffer_value (bytes : List Nat) : Nat :=
  ((bytes.take 8).map (fun b => b % 256)).foldr (fun b acc => b + 256 * acc) 0

/-- The value of `v` after `v = 0; read(fd, &v, sizeof(v));`. -/
def value_after_read : ReadOutcome → Nat
  | .err _ => 0
  | .data bytes => buffer_value bytes

/-- The inner loop of `sample` for one counter, over the CPU indices still to
visit. -/
def sample_cpus (rd : Nat → ReadOutcome) (m : syspapi_metric_s) : List Nat → List SampleEv
  | [] => []
  | i :: is =>
    if 0 ≤ pfd_at m.pfd i then
      .read (pfd_at m.pfd i) :: .array_set_u64 m.midx i (value_after_read (rd i))
        :: sample_cpus rd m is
    else .array_set_u64 m.midx i 0 :: sample_cpus rd m is

/-- The `TAILQ_FOREACH` of `sample`; `c` is the position of the head counter. -/
def sample_loop (env : Env) (NCPU : Nat) : Nat → List syspapi_metric_s → List SampleEv
  | _, [] => []
  | c, m :: ms => sample_cpus (env.read c) m (List.range NCPU) ++ sample_loop env NCPU (c + 1) ms

/-- `sample(self)`: the return code and what the pass did. -/
def sample (env : Env) (NCPU : Nat) (st : Plugin) : Int × List SampleEv :=
  if st.set.isNone then (EINVAL, [])
  else (0, .sample_begin :: sample_loop env NCPU 0 st.mlist ++ [.sample_end])

/-- The `(column, cpu, value)` triples written by a pass, in order. -/
def writes : List SampleEv → List (Int × Nat × Nat)
  | [] => []
  | .array_set_u64 midx i v :: evs => (midx, i, v) :: writes evs
  | _ :: evs => writes evs

/-- The descriptors on which a pass called `read`, in order. -/
def reads : List SampleEv → List Int
  | [] => []
  | .read fd :: evs => fd :: reads evs
  | _ :: evs => reads evs

/-! ## The specification's vocabulary -/

/-- The native event name handed to the encoder: the first native name of a
preset, the symbol of a native event. -/
def native_name (papi_code : Nat) (papi_info : PAPI_event_info_t) : CStr :=
  if IS_PRESET papi_code then papi_info.name.headD [] else papi_info.symbol

/-- The conditions of resolution short of the encoding, in the words of the
specification: the name is found, its metadata is retrievable, the owning
component is `perf_event` and enabled, and the event is native or a preset
that is `NOT_DERIVED` with exactly one native event. -/
def resolvable (env : Env) (papi_name : CStr) : Prop :=
  (env.PAPI_event_name_to_code papi_name).1 = PAPI_OK ∧
  (env.PAPI_get_event_info (env.PAPI_event_name_to_code papi_name).2).1 = PAPI_OK ∧
  (env.PAPI_get_component_info
    (env.PAPI_get_event_info (env.PAPI_event_name_to_code papi_name).2).2.component_index).name
      = PERF_EVENT ∧
  (env.PAPI_get_component_info
    (env.PAPI_get_event_info (env.PAPI_event_name_to_code papi_name).2).2.component_index).disabled
      = 0 ∧
  (IS_NATIVE (env.PAPI_event_name_to_code papi_name).2 = true ∨
    (IS_PRESET (env.PAPI_event_name_to_code papi_name).2 = true ∧
      (env.PAPI_get_event_info (env.PAPI_event_name_to_code papi_name).2).2.derived
        = NOT_DERIVED ∧
      (env.PAPI_get_event_info (env.PAPI_event_name_to_code papi_name).2).2.count = 1))

/-- The code the platform encoder returns for the single native event name
of a counter name. -/
def encoder_rc (env : Env) (papi_name : CStr) : Int :=
  (env.pfm_get_os_event_encoding
    (native_name (env.PAPI_event_name_to_code papi_name).2
      (env.PAPI_get_event_info (env.PAPI_event_name_to_code papi_name).2).2)).1

/-- The non-empty maximal comma-free segments of a string, left to right. -/
def segments (s : CStr) : List CStr :=
  (s.splitOn ',').filter (fun t => !t.isEmpty)

/-- Whether an open attempt failed with `EMFILE`. -/
def is_emfile : OpenOutcome → Bool
  | .fd _ => false
  | .fail e => (e.code : Int) == EMFILE

/-- The (counter position, CPU) pairs of the resolved counters of a list whose
head has position `c`: list order, then increasing CPU index. -/
def open_pairs (NCPU : Nat) : Nat → List syspapi_metric_s → List (Nat × Nat)
  | _, [] => []
  | c, m :: ms =>
    (if m.init_rc = 0 then (List.range NCPU).map (fun i => (c, i)) else [])
      ++ open_pairs NCPU (c + 1) ms

/-- The value `perf_event_open` returns for an outcome: the descriptor, or `-1`. -/
def open_ret : OpenOutcome → Int
  | .fd n => n
  | .fail _ => -1

/-- The counter at position `c` after its turn in the acquisition loop, when
the turn does not abort the pass. -/
def opened_metric (env : Env) (NCPU : Nat) (c : Nat) (m : syspapi_metric_s) : syspapi_metric_s :=
  if m.init_rc ≠ 0 then m
  else { m with pfd := (open_cpus (env.perf_event_open c) (List.range NCPU) m.pfd).pfd }

/-- The write a pass owes to one (counter, CPU) pair: the value read when the
handle is present, zero when it is absent. -/
def owed_write (env : Env) (c : Nat) (m : syspapi_metric_s) (i : Nat) : Int × Nat × Nat :=
  (m.midx, i, if 0 ≤ pfd_at m.pfd i then value_after_read (env.read c i) else 0)

/-! ## Concrete environments and states -/

/-- A name of 256 `char`s. -/
def long_name : CStr := List.replicate 256 'a'

/-- An environment in which every call succeeds: every name is a native
`perf_event` event, the file holds `{"events": ["C"]}`, and the base schema
has three columns. -/
def env_ok : Env :=
  { PAPI_event_name_to_code := fun _ => (0, 2 ^ 30)
    PAPI_get_event_info := fun _ =>
      (0, { component_index := 0, symbol := ['x'], derived := [], count := 0, name := [] })
    PAPI_get_component_info := fun _ => { name := PERF_EVENT, disabled := 0 }
    pfm_get_os_event_encoding := fun _ => (0, 7)
    calloc_ok := fun _ => true
    perf_event_open := fun c i => .fd (10 + 4 * c + i)
    read := fun c i => .data [c + 1, i, 0, 0, 0, 0, 0, 0]
    json_load := fun _ => .ok (.dict [(EVENTS_KEY, .list [.str ['C']])])
    strdup_ok := true
    base_config := .ok { schema_name := some ['s'] }
    base_schema_new := .ok [['c', 'o', 'm', 'p'], ['j', 'o', 'b'], ['a', 'p', 'p']]
    schema_add_refuses := fun _ _ => none
    base_set_new := none }

/-- As `env_ok`, with a file that holds `{"events": [long_name]}`. -/
def env_long_file : Env :=
  { env_ok with json_load := fun _ => .ok (.dict [(EVENTS_KEY, .list [.str long_name])]) }

/-- As `env_ok`, but the base schema cannot be created. -/
def env_no_schema : Env :=
  { env_ok with base_schema_new := .error ⟨12, by decide⟩ }

/-- As `env_ok`, but the open for counter 1 on CPU 0 fails with `EMFILE`. -/
def env_emfile : Env :=
  { env_ok with
    perf_event_open := fun c i =>
      if c = 1 ∧ i = 0 then .fail ⟨24, by decide⟩ else .fd (10 + 4 * c + i) }

/-- As `env_ok`, but the open for counter 0 on CPU 1 fails with `EACCES`. -/
def env_eacces : Env :=
  { env_ok with
    perf_event_open := fun c i =>
      if c = 0 ∧ i = 1 then .fail ⟨13, by decide⟩ else .fd (10 + 4 * c + i) }

/-- As `env_ok`, but reads fail: a short read of one byte on CPU 0, an OS
error on the other CPUs. -/
def env_bad_read : Env :=
  { env_ok with read := fun _ i => if i = 0 then .data [1] else .err ⟨5, by decide⟩ }

/-- The plugin before any call. -/
def st_fresh : Plugin := { set := none, mlist := [], metric_offset := 0, base := none }

/-- A counter as `syspapi_metric_add` leaves it on two CPUs in `env_ok`. -/
def metric_A : syspapi_metric_s := new_metric env_ok 2 ['A']

/-- The plugin with one counter registered and no set yet. -/
def st_registered : Plugin := { st_fresh with mlist := [metric_A] }

/-- A configured plugin with one counter on two CPUs, both handles open. -/
def st_one : Plugin :=
  { set := some [['A']], mlist := [{ metric_A with midx := 0, pfd := [5, 6] }],
    metric_offset := 0, base := some { schema_name := none } }

/-! ## Lemmas: the event resolver -/

theorem IS_NATIVE_not_PRESET (c : Nat) (h : IS_NATIVE c = true) : IS_PRESET c = false := by
  simp only [IS_NATIVE, IS_PRESET] at *
  revert h
  cases (c / 2 ^ 31 % 2 == 1) <;> cases (c / 2 ^ 30 % 2 == 1) <;> simp

theorem select_pfm_name_ok (c : Nat) (info : PAPI_event_info_t) (n : CStr) :
    select_pfm_name c info = .ok n ↔
      (IS_NATIVE c = true ∨ (IS_PRESET c = true ∧ info.derived = NOT_DERIVED ∧ info.count = 1))
        ∧ n = native_name c info := by
  unfold select_pfm_name native_name
  by_cases hp : IS_PRESET c = true
  · have hn : IS_NATIVE c ≠ true := fun h => by
      have := IS_NATIVE_not_PRESET c h; simp [hp] at this
    by_cases hd : info.derived = NOT_DERIVED
    · rcases hc : info.count with _ | _ | k
      · simp [hp, hd, hn]
      · simp [hp, hd, hn, eq_comm]
      · simp [hp, hd, hn]
    · simp [hp, hd, hn]
  · by_cases hn : IS_NATIVE c = true
    · simp [hp, hn, eq_comm]
    · simp [hp, hn]

theorem select_pfm_name_error_ne (c : Nat) (info : PAPI_event_info_t) (e : Int)
    (h : select_pfm_name c info = .error e) : e ≠ 0 := by
  unfold select_pfm_name at h
  split_ifs at h <;>
    first
    | (cases h; decide)
    | (split at h <;> first | (cases h; decide) | cases h)

/-- A return code of zero means the name fits and the event is resolvable. -/
theorem metric_init_zero_resolvable (env : Env) (NCPU : Nat) (m : syspapi_metric_s)
    (papi_name : CStr) (h : (syspapi_metric_init env NCPU m papi_name).1 = 0) :
    papi_name.length < NAME_BUF ∧ resolvable env papi_name := by
  unfold syspapi_metric_init at h
  unfold resolvable
  dsimp only at h
  by_cases h0 : NAME_BUF ≤ papi_name.length
  · rw [if_pos h0] at h
    exact absurd h (show ENAMETOOLONG ≠ 0 by decide)
  rw [if_neg h0] at h
  by_cases h1 : (env.PAPI_event_name_to_code papi_name).1 = PAPI_OK
  swap
  · rw [if_pos h1] at h
    exact absurd h (show (-1 : Int) ≠ 0 by decide)
  rw [if_neg (not_not.mpr h1)] at h
  by_cases h2 : (env.PAPI_get_event_info (env.PAPI_event_name_to_code papi_name).2).1 = PAPI_OK
  swap
  · rw [if_pos h2] at h
    exact absurd h (show (-1 : Int) ≠ 0 by decide)
  rw [if_neg (not_not.mpr h2)] at h
  by_cases h3 : PERF_EVENT = (env.PAPI_get_component_info
      (env.PAPI_get_event_info (env.PAPI_event_name_to_code papi_name).2).2.component_index).name
  swap
  · rw [if_pos h3] at h
    exact absurd h (show EINVAL ≠ 0 by decide)
  rw [if_neg (not_not.mpr h3)] at h
  by_cases h4 : (env.PAPI_get_component_info
    (env.PAPI_get_event_info (env.PAPI_event_name_to_code papi_name).2).2.component_index).disabled
      = 0
  swap
  · rw [if_pos h4] at h
    exact absurd h (show ENODATA ≠ 0 by decide)
  rw [if_neg (not_not.mpr h4)] at h
  cases hs : select_pfm_name (env.PAPI_event_name_to_code papi_name).2
      (env.PAPI_get_event_info (env.PAPI_event_name_to_code papi_name).2).2 with
  | error e =>
    rw [hs] at h
    exact absurd h (select_pfm_name_error_ne _ _ _ hs)
  | ok n =>
    exact ⟨by omega, h1, h2, h3.symm, h4, ((select_pfm_name_ok _ _ _).mp hs).1⟩

/-- For a name that fits and a resolvable event, the return code is the
encoder's. -/
theorem metric_init_rc_encoder (env : Env) (NCPU : Nat) (m : syspapi_metric_s)
    (papi_name : CStr) (hlen : papi_name.length < NAME_BUF) (hres : resolvable env papi_name) :
    (syspapi_metric_init env NCPU m papi_name).1 = encoder_rc env papi_name := by
  unfold syspapi_metric_init encoder_rc
  obtain ⟨h1, h2, h3, h4, h5⟩ := hres
  dsimp only
  rw [if_neg (by omega), if_neg (not_not.mpr h1), if_neg (not_not.mpr h2),
    if_neg (not_not.mpr h3.symm), if_neg (not_not.mpr h4)]
  have hs := (select_pfm_name_ok (env.PAPI_event_name_to_code papi_name).2
    (env.PAPI_get_event_info (env.PAPI_event_name_to_code papi_name).2).2 _).mpr ⟨h5, rfl⟩
  rw [hs]

/-- The name stored on a counter is the configured one cut to the buffer. -/
theorem metric_init_papi_name (env : Env) (NCPU : Nat) (m : syspapi_metric_s)
    (papi_name : CStr) :
    (syspapi_metric_init env NCPU m papi_name).2.papi_name = snprintf_buf papi_name := by
  unfold syspapi_metric_init
  dsimp only
  split_ifs <;> first | rfl | (split <;> rfl)

theorem snprintf_buf_short (s : CStr) (h : s.length < NAME_BUF) : snprintf_buf s = s := by
  unfold snprintf_buf
  exact List.take_of_length_le (by omega)

theorem snprintf_buf_length (s : CStr) : (snprintf_buf s).length < NAME_BUF := by
  unfold snprintf_buf NAME_BUF
  rw [List.length_take]
  omega

theorem long_name_length : long_name.length = 256 := by
  unfold long_name
  exact List.length_replicate _ _

theorem env_ok_resolvable (s : CStr) : resolvable env_ok s :=
  ⟨rfl, rfl, rfl, rfl, Or.inl (show IS_NATIVE (2 ^ 30) = true by decide)⟩

/-! ## Lemmas: the registry -/

theorem new_metric_papi_name (env : Env) (NCPU : Nat) (name : CStr) :
    (new_metric env NCPU name).papi_name = snprintf_buf name := by
  unfold new_metric
  exact metric_init_papi_name env NCPU _ name

theorem segments_nil : segments [] = [] := by
  decide

theorem segments_cons_comma (cs : CStr) : segments (',' :: cs) = segments cs := by
  unfold segments List.splitOn
  rw [List.splitOnP_cons]
  simp

/-- The first piece of the split is the scanned token; the later pieces are
the split of what the scan leaves. -/
theorem splitOn_scan_token (s : CStr) :
    ∃ t, s.splitOn ',' = (scan_token s).1 :: t ∧
      t.filter (fun t => !t.isEmpty) = segments (scan_token s).2 := by
  induction s with
  | nil => exact ⟨[], by decide, by decide⟩
  | cons c cs ih =>
    obtain ⟨t, ht, hf⟩ := ih
    by_cases hc : c = ','
    · subst hc
      refine ⟨cs.splitOn ',', ?_, ?_⟩
      · unfold List.splitOn
        rw [List.splitOnP_cons]
        simp [scan_token]
      · simp [scan_token, segments]
    · refine ⟨t, ?_, ?_⟩
      · unfold List.splitOn at ht ⊢
        rw [List.splitOnP_cons, ht]
        simp [scan_token, hc]
      · simp only [scan_token, hc, if_false]
        exact hf

theorem segments_skip_delim (s : CStr) : segments (skip_delim s) = segments s := by
  induction s with
  | nil => rfl
  | cons c cs ih =>
    by_cases hc : c = ','
    · subst hc
      simp only [skip_delim, if_true]
      rw [ih, segments_cons_comma]
    · simp only [skip_delim, hc, if_false]

theorem skip_delim_head (s : CStr) (c : Char) (cs : CStr) (h : skip_delim s = c :: cs) :
    c ≠ ',' := by
  induction s with
  | nil => simp [skip_delim] at h
  | cons d ds ih =>
    by_cases hd : d = ','
    · subst hd
      simp only [skip_delim, if_true] at h
      exact ih h
    · simp only [skip_delim, hd, if_false] at h
      cases h
      exact hd

theorem skip_delim_length (s : CStr) : (skip_delim s).length ≤ s.length := by
  induction s with
  | nil => simp [skip_delim]
  | cons d ds ih =>
    by_cases hd : d = ','
    · subst hd
      simp only [skip_delim, if_true, List.length_cons]
      omega
    · simp only [skip_delim, hd, if_false]
      exact le_refl _

theorem scan_token_length (s : CStr) : (scan_token s).2.length ≤ s.length - 1 := by
  induction s with
  | nil => simp [scan_token]
  | cons d ds ih =>
    by_cases hd : d = ','
    · subst hd
      simp [scan_token]
    · simp only [scan_token, hd, if_false, List.length_cons]
      omega

theorem strtok_r_none (s : CStr) (h : strtok_r s = none) : segments s = [] := by
  unfold strtok_r at h
  split at h
  · next hs => rw [← segments_skip_delim, hs, segments_nil]
  · cases h

theorem strtok_r_some (s tkn rest : CStr) (h : strtok_r s = some (tkn, rest)) :
    segments s = tkn :: segments rest ∧ rest.length < s.length := by
  unfold strtok_r at h
  split at h
  · cases h
  · next c cs hs =>
    have hc := skip_delim_head s c cs hs
    have hlen := skip_delim_length s
    have hsc := scan_token_length (c :: cs)
    rw [hs] at hlen
    simp only [Option.some.injEq] at h
    obtain ⟨t, ht, hf⟩ := splitOn_scan_token (c :: cs)
    rw [h] at ht hf hsc
    constructor
    · rw [← segments_skip_delim, hs]
      have htk : tkn = c :: (scan_token cs).1 := by
        have := congrArg Prod.fst h
        simp only [scan_token, hc, if_false] at this
        exact this.symm
      conv_lhs => rw [segments, ht, List.filter_cons, hf]
      simp [htk]
    · simp only [List.length_cons] at hlen hsc
      omega

theorem metric_add_ok (env : Env) (NCPU : Nat) (name : CStr) (mlist : List syspapi_metric_s)
    (h : env.calloc_ok mlist.length = true) :
    syspapi_metric_add env NCPU name mlist = (0, mlist ++ [new_metric env NCPU name]) := by
  unfold syspapi_metric_add
  rw [if_pos h]

theorem metric_add_zero (env : Env) (NCPU : Nat) (name : CStr) (mlist : List syspapi_metric_s)
    (h : (syspapi_metric_add env NCPU name mlist).1 = 0) :
    syspapi_metric_add env NCPU name mlist = (0, mlist ++ [new_metric env NCPU name]) := by
  unfold syspapi_metric_add at h ⊢
  by_cases hc : env.calloc_ok mlist.length = true
  · rw [if_pos hc]
  · rw [if_neg hc] at h
    exact absurd h (show ENOMEM ≠ 0 by decide)

/-- With enough rounds, the loop either registers every segment in order or
stops on a failed allocation. -/
theorem populate_loop_spec (env : Env) (NCPU : Nat) (fuel : Nat) :
    ∀ (s : CStr) (mlist : List syspapi_metric_s), s.length < fuel →
      populate_loop env NCPU fuel s mlist
          = (0, mlist ++ (segments s).map (new_metric env NCPU)) ∨
        ((populate_loop env NCPU fuel s mlist).1 ≠ 0 ∧ ∃ n, env.calloc_ok n = false) := by
  induction fuel with
  | zero => intro s mlist h; omega
  | succ fuel ih =>
    intro s mlist hlen
    unfold populate_loop
    cases hs : strtok_r s with
    | none =>
      left
      rw [strtok_r_none s hs]
      simp
    | some p =>
      obtain ⟨tkn, rest⟩ := p
      obtain ⟨hseg, hrest⟩ := strtok_r_some s tkn rest hs
      dsimp only
      by_cases hc : env.calloc_ok mlist.length = true
      · rw [metric_add_ok env NCPU tkn mlist hc]
        rw [if_neg (by simp)]
        rcases ih rest (mlist ++ [new_metric env NCPU tkn]) (by omega) with h | h
        · left
          rw [h, hseg]
          simp
        · right
          exact h
      · right
        have hadd : syspapi_metric_add env NCPU tkn mlist = (ENOMEM, mlist) := by
          unfold syspapi_metric_add
          rw [if_neg hc]
        have hne : ENOMEM ≠ 0 := by decide
        rw [hadd, if_pos hne]
        exact ⟨hne, mlist.length, by simpa using hc⟩

theorem populate_mlist_zero (env : Env) (NCPU : Nat) (s : CStr) (mlist : List syspapi_metric_s)
    (h : (populate_mlist env NCPU s mlist).1 = 0) :
    (populate_mlist env NCPU s mlist).2 = mlist ++ (segments s).map (new_metric env NCPU) := by
  unfold populate_mlist at h ⊢
  rcases populate_loop_spec env NCPU (s.length + 1) s mlist (by omega) with h' | h'
  · rw [h']
  · exact absurd h h'.1

theorem populate_mlist_alloc (env : Env) (NCPU : Nat) (s : CStr) (mlist : List syspapi_metric_s)
    (h : ∀ n, env.calloc_ok n = true) :
    populate_mlist env NCPU s mlist = (0, mlist ++ (segments s).map (new_metric env NCPU)) := by
  unfold populate_mlist
  rcases populate_loop_spec env NCPU (s.length + 1) s mlist (by omega) with h' | h'
  · exact h'
  · obtain ⟨n, hn⟩ := h'.2
    rw [h n] at hn
    cases hn

/-- The file loop, over a list of strings, registers each of them in order
when it returns zero. -/
theorem cfg_events_loop_zero (env : Env) (NCPU : Nat) :
    ∀ (F : List CStr) (mlist : List syspapi_metric_s),
      (cfg_events_loop env NCPU (F.map json_entity.str) mlist).1 = 0 →
      (cfg_events_loop env NCPU (F.map json_entity.str) mlist).2
        = mlist ++ F.map (new_metric env NCPU) := by
  intro F
  induction F with
  | nil => intro mlist _; simp [cfg_events_loop]
  | cons f fs ih =>
    intro mlist h
    simp only [List.map_cons, cfg_events_loop] at h ⊢
    by_cases hz : (syspapi_metric_add env NCPU f mlist).1 = 0
    · rw [if_neg (not_not.mpr hz)] at h ⊢
      rw [metric_add_zero env NCPU f mlist hz] at h ⊢
      rw [ih _ h]
      simp
    · rw [if_pos hz] at h
      exact absurd h hz

theorem segments_comma_free (s : CStr) (hne : s ≠ []) (h : ∀ c ∈ s, c ≠ ',') :
    segments s = [s] := by
  obtain ⟨t, ht, hf⟩ := splitOn_scan_token s
  have hscan : ∀ u : CStr, (∀ c ∈ u, c ≠ ',') → scan_token u = (u, []) := by
    intro u
    induction u with
    | nil => intro _; rfl
    | cons d ds ih =>
      intro hu
      have hd : d ≠ ',' := hu d (List.mem_cons_self _ _)
      have := ih (fun c hc => hu c (List.mem_cons_of_mem _ hc))
      simp only [scan_token, hd, if_false, this, List.cons]
  rw [hscan s h] at ht hf
  conv_lhs => rw [segments, ht, List.filter_cons, hf, segments_nil]
  cases s with
  | nil => exact absurd rfl hne
  | cons c cs => simp

/-! ## Lemmas: closing and opening handles -/

theorem pfd_at_set_ne (pfd : List Int) (i j : Nat) (v : Int) (h : i ≠ j) :
    pfd_at (pfd.set i v) j = pfd_at pfd j := by
  unfold pfd_at
  rw [List.getD_eq_getElem?_getD, List.getD_eq_getElem?_getD, List.getElem?_set_ne h]

theorem pfd_at_of_getElem? (pfd : List Int) (j : Nat) (x : Int) (h : pfd[j]? = some x) :
    pfd_at pfd j = x := by
  unfold pfd_at
  rw [List.getD_eq_getElem?_getD, h]
  rfl

theorem close_cpus_length (is : List Nat) :
    ∀ pfd : List Int, (close_cpus is pfd).1.length = pfd.length := by
  induction is with
  | nil => intro pfd; rfl
  | cons i is ih =>
    intro pfd
    unfold close_cpus
    split_ifs
    · exact ih pfd
    · simp only
      rw [ih, List.length_set]

/-- After the close loop, an entry is negative if its index was visited or
if it was negative before. -/
theorem close_cpus_neg (is : List Nat) :
    ∀ (pfd : List Int) (j : Nat) (x : Int), (close_cpus is pfd).1[j]? = some x →
      (j ∈ is ∨ ∃ y, pfd[j]? = some y ∧ y < 0) → x < 0 := by
  induction is with
  | nil =>
    intro pfd j x hx h
    rcases h with h | ⟨y, hy, hneg⟩
    · cases h
    · simp only [close_cpus] at hx
      rw [hx] at hy
      cases hy
      exact hneg
  | cons i is ih =>
    intro pfd j x hx h
    unfold close_cpus at hx
    by_cases hi : pfd_at pfd i < 0
    · rw [if_pos hi] at hx
      apply ih pfd j x hx
      rcases h with h | h
      · rcases List.mem_cons.mp h with rfl | h
        · right
          have hlt : j < pfd.length := by
            have := (List.getElem?_eq_some_iff.mp hx).1
            rw [close_cpus_length] at this
            exact this
          refine ⟨pfd[j], List.getElem?_eq_getElem hlt, ?_⟩
          rw [pfd_at_of_getElem? pfd j pfd[j] (List.getElem?_eq_getElem hlt)] at hi
          exact hi
        · exact Or.inl h
      · exact Or.inr h
    · rw [if_neg hi] at hx
      simp only at hx
      apply ih (pfd.set i (-1)) j x hx
      by_cases hij : i = j
      · subst hij
        right
        have hlt : i < pfd.length := by
          have := (List.getElem?_eq_some_iff.mp hx).1
          rw [close_cpus_length, List.length_set] at this
          exact this
        exact ⟨-1, List.getElem?_set_self hlt, by decide⟩
      · rcases h with h | ⟨y, hy, hneg⟩
        · rcases List.mem_cons.mp h with rfl | h
          · exact absurd rfl hij
          · exact Or.inl h
        · right
          exact ⟨y, by rw [List.getElem?_set_ne hij]; exact hy, hneg⟩

/-- Every non-negative entry at a visited index is passed to `close`. -/
theorem close_cpus_closed (is : List Nat) :
    ∀ (pfd : List Int) (j : Nat), j ∈ is → 0 ≤ pfd_at pfd j →
      pfd_at pfd j ∈ (close_cpus is pfd).2 := by
  induction is with
  | nil => intro pfd j h; cases h
  | cons i is ih =>
    intro pfd j hj hpos
    unfold close_cpus
    by_cases hi : pfd_at pfd i < 0
    · rw [if_pos hi]
      rcases List.mem_cons.mp hj with rfl | h
      · omega
      · exact ih pfd j h hpos
    · rw [if_neg hi]
      simp only
      by_cases hij : i = j
      · subst hij
        exact List.mem_cons_self _ _
      · rcases List.mem_cons.mp hj with rfl | h
        · exact absurd rfl hij
        · apply List.mem_cons_of_mem
          have := ih (pfd.set i (-1)) j h (by rw [pfd_at_set_ne pfd i j _ hij]; exact hpos)
          rw [pfd_at_set_ne pfd i j _ hij] at this
          exact this

theorem close_cpus_all_neg (NCPU : Nat) (pfd : List Int) (h : pfd.length ≤ NCPU) :
    ∀ x ∈ (close_cpus (List.range NCPU) pfd).1, x < 0 := by
  intro x hx
  obtain ⟨j, hj⟩ := List.mem_iff_getElem?.mp hx
  apply close_cpus_neg _ pfd j x hj
  left
  have := (List.getElem?_eq_some_iff.mp hj).1
  rw [close_cpus_length] at this
  exact List.mem_range.mpr (by omega)

theorem close_cpus_all_closed (NCPU : Nat) (pfd : List Int) (h : pfd.length ≤ NCPU) :
    ∀ x ∈ pfd, 0 ≤ x → x ∈ (close_cpus (List.range NCPU) pfd).2 := by
  intro x hx hpos
  obtain ⟨j, hj⟩ := List.mem_iff_getElem?.mp hx
  have hlt := (List.getElem?_eq_some_iff.mp hj).1
  have := close_cpus_closed (List.range NCPU) pfd j (List.mem_range.mpr (by omega))
  rw [pfd_at_of_getElem? pfd j x hj] at this
  exact this hpos

theorem syspapi_close_neg (NCPU : Nat) (mlist : List syspapi_metric_s)
    (hwf : ∀ m ∈ mlist, m.pfd.length ≤ NCPU) :
    ∀ m ∈ (syspapi_close NCPU mlist).1, ∀ x ∈ m.pfd, x < 0 := by
  induction mlist with
  | nil => intro m hm; cases hm
  | cons a as ih =>
    intro m hm
    simp only [syspapi_close] at hm
    rcases List.mem_cons.mp hm with rfl | h
    · exact close_cpus_all_neg NCPU a.pfd (hwf a (List.mem_cons_self _ _))
    · exact ih (fun m hm => hwf m (List.mem_cons_of_mem _ hm)) m h

theorem syspapi_close_closed (NCPU : Nat) (mlist : List syspapi_metric_s)
    (hwf : ∀ m ∈ mlist, m.pfd.length ≤ NCPU) :
    ∀ m ∈ mlist, ∀ x ∈ m.pfd, 0 ≤ x → x ∈ (syspapi_close NCPU mlist).2 := by
  induction mlist with
  | nil => intro m hm; cases hm
  | cons a as ih =>
    intro m hm x hx hpos
    simp only [syspapi_close]
    rcases List.mem_cons.mp hm with rfl | h
    · exact List.mem_append_left _
        (close_cpus_all_closed NCPU m.pfd (hwf m (List.mem_cons_self _ _)) x hx hpos)
    · exact List.mem_append_right _
        (ih (fun m hm => hwf m (List.mem_cons_of_mem _ hm)) m h x hx hpos)

/-- Closing changes nothing but the descriptor arrays. -/
theorem syspapi_close_map {α : Type} (f : syspapi_metric_s → α)
    (hf : ∀ (m : syspapi_metric_s) (p : List Int), f { m with pfd := p } = f m)
    (NCPU : Nat) (mlist : List syspapi_metric_s) :
    (syspapi_close NCPU mlist).1.map f = mlist.map f := by
  induction mlist with
  | nil => rfl
  | cons a as ih =>
    simp only [syspapi_close, List.map_cons]
    rw [ih, hf]

theorem open_cpus_length (perf : Nat → OpenOutcome) (is : List Nat) :
    ∀ pfd : List Int, (open_cpus perf is pfd).pfd.length = pfd.length := by
  induction is with
  | nil => intro pfd; rfl
  | cons i is ih =>
    intro pfd
    unfold open_cpus
    split
    · simp only
      rw [ih, List.length_set]
    · split_ifs
      · simp only [List.length_set]
      · simp only
        rw [ih, List.length_set]

/-- The open loop leaves the entries it does not visit. -/
theorem open_cpus_frame (perf : Nat → OpenOutcome) (is : List Nat) :
    ∀ (pfd : List Int) (j : Nat), j ∉ is → (open_cpus perf is pfd).pfd[j]? = pfd[j]? := by
  induction is with
  | nil => intro pfd j _; rfl
  | cons i is ih =>
    intro pfd j hj
    have hij : i ≠ j := fun h => hj (h ▸ List.mem_cons_self _ _)
    have hj' : j ∉ is := fun h => hj (List.mem_cons_of_mem _ h)
    unfold open_cpus
    split
    · simp only
      rw [ih _ j hj', List.getElem?_set_ne hij]
    · split_ifs
      · simp only
        rw [List.getElem?_set_ne hij]
      · simp only
        rw [ih _ j hj', List.getElem?_set_ne hij]

/-- A descriptor obtained by the open loop is in the array it leaves. -/
theorem open_cpus_fd (perf : Nat → OpenOutcome) (is : List Nat) :
    ∀ (pfd : List Int), is.Nodup → ∀ i ∈ (open_cpus perf is pfd).tried, i < pfd.length →
      ∀ n, perf i = .fd n → (open_cpus perf is pfd).pfd[i]? = some (n : Int) := by
  induction is with
  | nil => intro pfd _ i hi; cases hi
  | cons a as ih =>
    intro pfd hnd i hi hlt n hn
    have hnd' := (List.nodup_cons.mp hnd).2
    have ha := (List.nodup_cons.mp hnd).1
    unfold open_cpus at hi ⊢
    split at hi
    · next m hm =>
      simp only at hi ⊢
      rcases List.mem_cons.mp hi with rfl | h
      · rw [hm] at hn
        cases hn
        rw [open_cpus_frame perf as _ i ha, List.getElem?_set_self hlt]
      · exact ih _ hnd' i h (by rw [List.length_set]; exact hlt) n hn
    · next e he =>
      by_cases hem : (e.code : Int) = EMFILE
      · rw [if_pos hem] at hi ⊢
        simp only [List.mem_singleton] at hi
        subst hi
        rw [he] at hn
        cases hn
      · rw [if_neg hem] at hi ⊢
        simp only at hi ⊢
        rcases List.mem_cons.mp hi with rfl | h
        · rw [he] at hn
          cases hn
        · exact ih _ hnd' i h (by rw [List.length_set]; exact hlt) n hn

/-- The open loop visits the indices in order and stops at the first
`EMFILE`, if there is one. -/
theorem open_cpus_spec (perf : Nat → OpenOutcome) (is : List Nat) :
    ∀ (pfd : List Int),
      ((open_cpus perf is pfd).abort = none ∧ (open_cpus perf is pfd).tried = is ∧
          ∀ i ∈ is, is_emfile (perf i) = false) ∨
      ((open_cpus perf is pfd).abort = some EMFILE ∧
        ∃ pre i post, is = pre ++ i :: post ∧ (open_cpus perf is pfd).tried = pre ++ [i] ∧
          is_emfile (perf i) = true ∧ ∀ j ∈ pre, is_emfile (perf j) = false) := by
  induction is with
  | nil =>
    intro pfd
    left
    exact ⟨rfl, rfl, fun i hi => by cases hi⟩
  | cons a as ih =>
    intro pfd
    unfold open_cpus
    split
    · next m hm =>
      have ha : is_emfile (perf a) = false := by rw [hm]; rfl
      simp only
      rcases ih (pfd.set a m) with ⟨h1, h2, h3⟩ | ⟨h1, pre, i, post, h2, h3, h4, h5⟩
      · left
        refine ⟨h1, by rw [h2], ?_⟩
        intro i hi
        rcases List.mem_cons.mp hi with rfl | h
        · exact ha
        · exact h3 i h
      · right
        refine ⟨h1, a :: pre, i, post, by rw [h2]; rfl, by rw [h3]; rfl, h4, ?_⟩
        intro j hj
        rcases List.mem_cons.mp hj with rfl | h
        · exact ha
        · exact h5 j h
    · next e he =>
      by_cases hem : (e.code : Int) = EMFILE
      · rw [if_pos hem]
        right
        refine ⟨by simp only [hem], [], a, as, rfl, rfl, ?_, fun j hj => by cases hj⟩
        rw [he]
        simp [is_emfile, hem]
      · rw [if_neg hem]
        have ha : is_emfile (perf a) = false := by
          rw [he]
          simp [is_emfile, hem]
        simp only
        rcases ih (pfd.set a (-1)) with ⟨h1, h2, h3⟩ | ⟨h1, pre, i, post, h2, h3, h4, h5⟩
        · left
          refine ⟨h1, by rw [h2], ?_⟩
          intro i hi
          rcases List.mem_cons.mp hi with rfl | h
          · exact ha
          · exact h3 i h
        · right
          refine ⟨h1, a :: pre, i, post, by rw [h2]; rfl, by rw [h3]; rfl, h4, ?_⟩
          intro j hj
          rcases List.mem_cons.mp hj with rfl | h
          · exact ha
          · exact h5 j h

/-! ## Lemmas: the acquisition pass -/

/-- The pass attempts the pairs of the resolved counters in order, all of
them when none fails with `EMFILE`, else up to the first that does. -/
theorem open_loop_spec (env : Env) (NCPU : Nat) (todo : List syspapi_metric_s) :
    ∀ (c : Nat) (done : List syspapi_metric_s),
      ((syspapi_open_loop env NCPU c done todo).rc = 0 ∧
        (syspapi_open_loop env NCPU c done todo).attempts = open_pairs NCPU c todo ∧
        (syspapi_open_loop env NCPU c done todo).closed = [] ∧
        ∀ p ∈ open_pairs NCPU c todo, is_emfile (env.perf_event_open p.1 p.2) = false) ∨
      ((syspapi_open_loop env NCPU c done todo).rc = EMFILE ∧
        ∃ pre p post, open_pairs NCPU c todo = pre ++ p :: post ∧
          (syspapi_open_loop env NCPU c done todo).attempts = pre ++ [p] ∧
          is_emfile (env.perf_event_open p.1 p.2) = true ∧
          ∀ q ∈ pre, is_emfile (env.perf_event_open q.1 q.2) = false) := by
  induction todo with
  | nil =>
    intro c done
    left
    exact ⟨rfl, rfl, rfl, fun p hp => by cases hp⟩
  | cons m todo ih =>
    intro c done
    unfold syspapi_open_loop open_pairs
    by_cases hrc : m.init_rc = 0
    · rw [if_neg (not_not.mpr hrc), if_pos hrc]
      dsimp only
      rcases open_cpus_spec (env.perf_event_open c) (List.range NCPU) m.pfd with
        ⟨h1, h2, h3⟩ | ⟨h1, pre, i, post, h2, h3, h4, h5⟩
      · rw [h1]
        dsimp only
        rw [h2]
        have hmap : ∀ p ∈ (List.range NCPU).map (fun i => (c, i)),
            is_emfile (env.perf_event_open p.1 p.2) = false := by
          intro p hp
          obtain ⟨i, hi, rfl⟩ := List.mem_map.mp hp
          exact h3 i hi
        rcases ih (c + 1) (done ++ [{ m with pfd :=
            (open_cpus (env.perf_event_open c) (List.range NCPU) m.pfd).pfd }]) with
          ⟨g1, g2, g3, g4⟩ | ⟨g1, pre, p, post, g2, g3, g4, g5⟩
        · left
          refine ⟨g1, by rw [g2], g3, ?_⟩
          intro p hp
          rcases List.mem_append.mp hp with h | h
          · exact hmap p h
          · exact g4 p h
        · right
          refine ⟨g1, (List.range NCPU).map (fun i => (c, i)) ++ pre, p, post,
            by rw [g2, List.append_assoc], by rw [g3, List.append_assoc], g4, ?_⟩
          intro q hq
          rcases List.mem_append.mp hq with h | h
          · exact hmap q h
          · exact g5 q h
      · rw [h1]
        dsimp only
        right
        refine ⟨rfl, pre.map (fun i => (c, i)), (c, i),
          post.map (fun i => (c, i)) ++ open_pairs NCPU (c + 1) todo, ?_, ?_, h4, ?_⟩
        · rw [h2]
          simp
        · rw [h3]
          simp
        · intro q hq
          obtain ⟨j, hj, rfl⟩ := List.mem_map.mp hq
          exact h5 j hj
    · rw [if_pos hrc, if_neg hrc, List.nil_append]
      exact ih (c + 1) (done ++ [m])

/-- When the pass fails, no handle is left open, and every descriptor held by
a visited counter or obtained during the pass has been closed. -/
theorem open_loop_abort (env : Env) (NCPU : Nat) (todo : List syspapi_metric_s) :
    ∀ (c : Nat) (done : List syspapi_metric_s),
      (∀ m ∈ done ++ todo, m.pfd.length = NCPU) →
      (syspapi_open_loop env NCPU c done todo).rc ≠ 0 →
      (∀ m ∈ (syspapi_open_loop env NCPU c done todo).mlist, ∀ x ∈ m.pfd, x < 0) ∧
      (∀ m ∈ done, ∀ x ∈ m.pfd, 0 ≤ x → x ∈ (syspapi_open_loop env NCPU c done todo).closed) ∧
      (∀ p ∈ (syspapi_open_loop env NCPU c done todo).attempts, ∀ n,
        env.perf_event_open p.1 p.2 = .fd n →
          (n : Int) ∈ (syspapi_open_loop env NCPU c done todo).closed) := by
  induction todo with
  | nil =>
    intro c done _ h
    exact absurd rfl h
  | cons m todo ih =>
    intro c done hwf
    unfold syspapi_open_loop
    by_cases hrc : m.init_rc = 0
    · rw [if_neg (not_not.mpr hrc)]
      dsimp only
      have hm : m.pfd.length = NCPU :=
        hwf m (List.mem_append_right _ (List.mem_cons_self _ _))
      have hlen := open_cpus_length (env.perf_event_open c) (List.range NCPU) m.pfd
      have hfd : ∀ i ∈ (open_cpus (env.perf_event_open c) (List.range NCPU) m.pfd).tried,
          ∀ n, env.perf_event_open c i = .fd n →
            (n : Int) ∈ (open_cpus (env.perf_event_open c) (List.range NCPU) m.pfd).pfd := by
        intro i hi n hn
        have hsub : i ∈ List.range NCPU := by
          rcases open_cpus_spec (env.perf_event_open c) (List.range NCPU) m.pfd with
            ⟨_, h2, _⟩ | ⟨_, pre, j, post, h2, h3, _, _⟩
          · rw [h2] at hi; exact hi
          · rw [h3] at hi
            rw [h2]
            rcases List.mem_append.mp hi with h | h
            · exact List.mem_append_left _ h
            · exact List.mem_append_right _ (by
                rw [List.mem_singleton] at h
                rw [h]
                exact List.mem_cons_self _ _)
        have := open_cpus_fd (env.perf_event_open c) (List.range NCPU) m.pfd
          (List.nodup_range NCPU) i hi (by rw [hm]; exact List.mem_range.mp hsub) n hn
        exact List.mem_iff_getElem?.mpr ⟨i, this⟩
      cases hab : (open_cpus (env.perf_event_open c) (List.range NCPU) m.pfd).abort with
      | some rc =>
        dsimp only
        intro _
        have hwf' : ∀ a ∈ done ++ { m with pfd :=
            (open_cpus (env.perf_event_open c) (List.range NCPU) m.pfd).pfd } :: todo,
            a.pfd.length ≤ NCPU := by
          intro a ha
          rcases List.mem_append.mp ha with h | h
          · exact le_of_eq (hwf a (List.mem_append_left _ h))
          · rcases List.mem_cons.mp h with rfl | h
            · simp only
              rw [hlen, hm]
            · exact le_of_eq (hwf a (List.mem_append_right _ (List.mem_cons_of_mem _ h)))
        refine ⟨syspapi_close_neg NCPU _ hwf', ?_, ?_⟩
        · intro a ha x hx hpos
          exact syspapi_close_closed NCPU _ hwf' a (List.mem_append_left _ ha) x hx hpos
        · intro p hp n hn
          obtain ⟨i, hi, rfl⟩ := List.mem_map.mp hp
          exact syspapi_close_closed NCPU _ hwf' _
            (List.mem_append_right _ (List.mem_cons_self _ _)) n (hfd i hi n hn)
            (Int.ofNat_nonneg n)
      | none =>
        dsimp only
        intro hne
        have hwf' : ∀ a ∈ (done ++ [{ m with pfd :=
            (open_cpus (env.perf_event_open c) (List.range NCPU) m.pfd).pfd }]) ++ todo,
            a.pfd.length = NCPU := by
          intro a ha
          rcases List.mem_append.mp ha with h | h
          · rcases List.mem_append.mp h with h | h
            · exact hwf a (List.mem_append_left _ h)
            · rw [List.mem_singleton] at h
              rw [h]
              simp only
              rw [hlen, hm]
          · exact hwf a (List.mem_append_right _ (List.mem_cons_of_mem _ h))
        obtain ⟨g1, g2, g3⟩ := ih (c + 1) _ hwf' hne
        refine ⟨g1, ?_, ?_⟩
        · intro a ha
          exact g2 a (List.mem_append_left _ ha)
        · intro p hp n hn
          rcases List.mem_append.mp hp with h | h
          · obtain ⟨i, hi, rfl⟩ := List.mem_map.mp h
            exact g2 _ (List.mem_append_right _ (List.mem_singleton.mpr rfl)) n
              (hfd i hi n hn) (Int.ofNat_nonneg n)
          · exact g3 p h n hn
    · rw [if_pos hrc]
      intro hne
      have hwf' : ∀ a ∈ (done ++ [m]) ++ todo, a.pfd.length = NCPU := by
        intro a ha
        apply hwf a
        simpa using ha
      obtain ⟨g1, g2, g3⟩ := ih (c + 1) _ hwf' hne
      exact ⟨g1, fun a ha => g2 a (List.mem_append_left _ ha), g3⟩

/-- The pass changes nothing but the descriptor arrays. -/
theorem open_loop_map {α : Type} (f : syspapi_metric_s → α)
    (hf : ∀ (m : syspapi_metric_s) (p : List Int), f { m with pfd := p } = f m)
    (env : Env) (NCPU : Nat) (todo : List syspapi_metric_s) :
    ∀ (c : Nat) (done : List syspapi_metric_s),
      (syspapi_open_loop env NCPU c done todo).mlist.map f = (done ++ todo).map f := by
  induction todo with
  | nil => intro c done; simp [syspapi_open_loop]
  | cons m todo ih =>
    intro c done
    unfold syspapi_open_loop
    by_cases hrc : m.init_rc = 0
    · rw [if_neg (not_not.mpr hrc)]
      dsimp only
      cases (open_cpus (env.perf_event_open c) (List.range NCPU) m.pfd).abort with
      | some rc =>
        dsimp only
        rw [syspapi_close_map f hf]
        simp [hf]
      | none =>
        dsimp only
        rw [ih]
        simp [hf]
    · rw [if_pos hrc, ih]
      simp

/-! ## Lemmas: column assignment -/

theorem schema_add_nonneg_or_neg (env : Env) (schema : ldms_schema) (name : CStr) :
    ((ldms_schema_metric_array_add env schema name).1 < 0 ∧
        -(ldms_schema_metric_array_add env schema name).1 ≠ 0) ∨
      ldms_schema_metric_array_add env schema name
        = ((schema.length : Int), schema ++ [name]) := by
  unfold ldms_schema_metric_array_add
  cases env.schema_add_refuses schema name with
  | none => right; rfl
  | some e =>
    left
    have := e.pos
    dsimp only
    omega

/-- When every column is accepted, the counters get consecutive indices that
start at the number of columns already present. -/
theorem add_columns_zero (env : Env) (ms : List syspapi_metric_s) :
    ∀ schema : ldms_schema, (add_columns env schema ms).1 = 0 →
      (add_columns env schema ms).2.2.map (fun m => m.midx)
          = (List.range' schema.length ms.length).map Int.ofNat ∧
        (add_columns env schema ms).2.1 = schema ++ ms.map (fun m => m.papi_name) := by
  induction ms with
  | nil => intro schema _; simp [add_columns]
  | cons m ms ih =>
    intro schema h
    unfold add_columns at h ⊢
    dsimp only at h ⊢
    rcases schema_add_nonneg_or_neg env schema m.papi_name with ⟨h1, h2⟩ | h1
    · rw [if_pos h1] at h
      exact absurd h h2
    · rw [h1] at h ⊢
      have hnn : ¬ ((schema.length : Int) < 0) := by omega
      rw [if_neg hnn] at h ⊢
      obtain ⟨g1, g2⟩ := ih _ h
      constructor
      · simp only [List.map_cons, List.length_cons, List.range'_succ]
        rw [g1]
        simp
      · rw [g2]
        simp

/-- Column assignment changes nothing but `midx`. -/
theorem add_columns_map {α : Type} (f : syspapi_metric_s → α)
    (hf : ∀ (m : syspapi_metric_s) (k : Int), f { m with midx := k } = f m)
    (env : Env) (ms : List syspapi_metric_s) :
    ∀ schema : ldms_schema, (add_columns env schema ms).2.2.map f = ms.map f := by
  induction ms with
  | nil => intro schema; rfl
  | cons m ms ih =>
    intro schema
    unfold add_columns
    dsimp only
    split_ifs
    · rfl
    · simp only [List.map_cons]
      rw [ih, hf]

theorem create_metric_set_zero (env : Env) (st : Plugin)
    (h : (create_metric_set env st).1 = 0) :
    ∃ schema, env.base_schema_new = .ok schema ∧
      (create_metric_set env st).2.metric_offset = schema.length ∧
      (create_metric_set env st).2.mlist.map (fun m => m.midx)
        = (List.range' schema.length st.mlist.length).map Int.ofNat ∧
      (create_metric_set env st).2.set = some (schema ++ st.mlist.map (fun m => m.papi_name)) := by
  unfold create_metric_set at h ⊢
  cases hb : env.base_schema_new with
  | error e =>
    rw [hb] at h
    have := e.pos
    dsimp only at h
    omega
  | ok schema =>
    rw [hb] at h
    dsimp only at h ⊢
    by_cases hz : (add_columns env schema st.mlist).1 = 0
    · rw [if_neg (not_not.mpr hz)] at h ⊢
      obtain ⟨g1, g2⟩ := add_columns_zero env st.mlist schema hz
      cases hs : env.base_set_new with
      | some e =>
        rw [hs] at h
        have := e.pos
        dsimp only at h
        omega
      | none =>
        dsimp only
        exact ⟨schema, rfl, rfl, g1, by rw [g2]⟩
    · rw [if_pos hz] at h
      exact absurd h hz

theorem create_metric_set_map {α : Type} (f : syspapi_metric_s → α)
    (hf : ∀ (m : syspapi_metric_s) (k : Int), f { m with midx := k } = f m)
    (env : Env) (st : Plugin) :
    (create_metric_set env st).2.mlist.map f = st.mlist.map f := by
  unfold create_metric_set
  cases env.base_schema_new with
  | error e => rfl
  | ok schema =>
    dsimp only
    split_ifs
    · exact add_columns_map f hf env st.mlist schema
    · cases env.base_set_new with
      | some e => exact add_columns_map f hf env st.mlist schema
      | none => exact add_columns_map f hf env st.mlist schema

/-! ## Lemmas: the sample pass -/

theorem writes_append (a b : List SampleEv) : writes (a ++ b) = writes a ++ writes b := by
  induction a with
  | nil => rfl
  | cons e es ih => cases e <;> simp [writes, ih]

theorem reads_append (a b : List SampleEv) : reads (a ++ b) = reads a ++ reads b := by
  induction a with
  | nil => rfl
  | cons e es ih => cases e <;> simp [reads, ih]

theorem writes_sample_cpus (env : Env) (c : Nat) (m : syspapi_metric_s) (is : List Nat) :
    writes (sample_cpus (env.read c) m is) = is.map (owed_write env c m) := by
  induction is with
  | nil => rfl
  | cons i is ih =>
    unfold sample_cpus
    by_cases h : 0 ≤ pfd_at m.pfd i
    · rw [if_pos h]
      simp [writes, ih, owed_write, h]
    · rw [if_neg h]
      simp [writes, ih, owed_write, h]

theorem reads_sample_cpus (rd : Nat → ReadOutcome) (m : syspapi_metric_s) (is : List Nat) :
    reads (sample_cpus rd m is)
      = (is.filter (fun i => decide (0 ≤ pfd_at m.pfd i))).map (pfd_at m.pfd) := by
  induction is with
  | nil => rfl
  | cons i is ih =>
    unfold sample_cpus
    by_cases h : 0 ≤ pfd_at m.pfd i
    · rw [if_pos h]
      simp [reads, ih, h]
    · rw [if_neg h]
      simp [reads, ih, h]

/-- One write per (counter, CPU) pair: list order, then increasing CPU index. -/
theorem writes_sample_loop (env : Env) (NCPU : Nat) (ms : List syspapi_metric_s) :
    ∀ c : Nat, writes (sample_loop env NCPU c ms)
      = (ms.enumFrom c).flatMap (fun cm => (List.range NCPU).map (owed_write env cm.1 cm.2)) := by
  induction ms with
  | nil => intro c; rfl
  | cons m ms ih =>
    intro c
    simp only [sample_loop, writes_append, writes_sample_cpus, List.enumFrom_cons,
      List.flatMap_cons, ih]

/-- A read per present handle, and only there. -/
theorem reads_sample_loop (env : Env) (NCPU : Nat) (ms : List syspapi_metric_s) :
    ∀ c : Nat, reads (sample_loop env NCPU c ms)
      = ms.flatMap (fun m =>
          ((List.range NCPU).filter (fun i => decide (0 ≤ pfd_at m.pfd i))).map (pfd_at m.pfd)) := by
  induction ms with
  | nil => intro c; rfl
  | cons m ms ih =>
    intro c
    simp only [sample_loop, reads_append, reads_sample_cpus, List.flatMap_cons, ih]

theorem writes_sample_loop_length (env : Env) (NCPU : Nat) (ms : List syspapi_metric_s) :
    ∀ c : Nat, (writes (sample_loop env NCPU c ms)).length = ms.length * NCPU := by
  induction ms with
  | nil => intro c; simp [sample_loop, writes]
  | cons m ms ih =>
    intro c
    simp only [sample_loop, writes_append, writes_sample_cpus, List.length_append,
      List.length_map, List.length_range, ih, List.length_cons]
    ring

/-- The write at position `k * NCPU + i` of a pass is the one owed to CPU `i`
of the counter at position `k`. -/
theorem writes_sample_loop_get (env : Env) (NCPU : Nat) (ms : List syspapi_metric_s) :
    ∀ (c k i : Nat) (m : syspapi_metric_s), ms[k]? = some m → i < NCPU →
      (writes (sample_loop env NCPU c ms))[k * NCPU + i]? = some (owed_write env (c + k) m i) := by
  induction ms with
  | nil => intro c k i m h; simp at h
  | cons a as ih =>
    intro c k i m h hi
    simp only [sample_loop, writes_append, writes_sample_cpus]
    cases k with
    | zero =>
      simp only [List.getElem?_cons_zero, Option.some.injEq] at h
      subst h
      rw [List.getElem?_append_left (by simp; omega)]
      simp [List.getElem?_map, List.getElem?_range hi]
    | succ k =>
      simp only [List.getElem?_cons_succ] at h
      rw [List.getElem?_append_right (by simp; nlinarith)]
      have hidx : (k + 1) * NCPU + i - ((List.range NCPU).map (owed_write env c a)).length
          = k * NCPU + i := by
        simp only [List.length_map, List.length_range]
        have : (k + 1) * NCPU = k * NCPU + NCPU := by ring
        omega
      rw [hidx, ih (c + 1) k i m h hi]
      congr 2
      omega

theorem sample_initialized (env : Env) (NCPU : Nat) (st : Plugin) (h : st.set.isSome = true) :
    (sample env NCPU st).1 = 0 ∧
      writes (sample env NCPU st).2 = writes (sample_loop env NCPU 0 st.mlist) ∧
      reads (sample env NCPU st).2 = reads (sample_loop env NCPU 0 st.mlist) := by
  unfold sample
  have hn : st.set.isNone = false := by
    cases hs : st.set with
    | none => rw [hs] at h; cases h
    | some s => rfl
  rw [hn]
  simp [writes, reads, writes_append, reads_append]

theorem buffer_value_zero_iff (bytes : List Nat) :
    buffer_value bytes = 0 ↔ ∀ b ∈ bytes.take 8, b % 256 = 0 := by
  unfold buffer_value
  generalize bytes.take 8 = l
  induction l with
  | nil => simp
  | cons b bs ih =>
    simp only [List.map_cons, List.foldr_cons, List.mem_cons, forall_eq_or_imp]
    rw [← ih]
    omega

/-! ## Lemmas: configuration -/

theorem cfg_schema_step_keeps (env : Env) (json : json_entity) (st : Plugin) :
    (cfg_schema_step env json st).2.mlist = st.mlist ∧
      (cfg_schema_step env json st).2.set = st.set := by
  unfold cfg_schema_step
  split
  · exact ⟨rfl, rfl⟩
  · split_ifs <;> exact ⟨rfl, rfl⟩
  · exact ⟨rfl, rfl⟩

/-- A file whose `events` attribute is a list of strings, ingested with
return code zero, appends one counter per string, in list order. -/
theorem handle_cfg_file_zero (env : Env) (NCPU : Nat) (path : CStr) (st : Plugin)
    (json : json_entity) (F : List CStr) (hload : env.json_load path = .ok json)
    (hev : json_attr_find json EVENTS_KEY = some (.list (F.map json_entity.str)))
    (h : (handle_cfg_file env NCPU path st).1 = 0) :
    (handle_cfg_file env NCPU path st).2.mlist = st.mlist ++ F.map (new_metric env NCPU) ∧
      (handle_cfg_file env NCPU path st).2.set = st.set := by
  unfold handle_cfg_file at h ⊢
  rw [hload] at h ⊢
  dsimp only at h ⊢
  obtain ⟨k1, k2⟩ := cfg_schema_step_keeps env json st
  by_cases hs : (cfg_schema_step env json st).1 = 0
  · rw [if_neg (not_not.mpr hs), hev] at h ⊢
    dsimp only at h ⊢
    rw [k1] at h ⊢
    exact ⟨cfg_events_loop_zero env NCPU F st.mlist h, k2⟩
  · rw [if_pos hs] at h
    exact absurd h hs

theorem config_rejects (env : Env) (NCPU : Nat) (cfg_file events : Option CStr) (st : Plugin)
    (h : st.set.isSome = true) :
    config env NCPU cfg_file events st = { rc := EINVAL, st := st, attempts := [], closed := [] } := by
  unfold config
  rw [if_pos h]

/-- A configure call that returns zero has created the set. -/
theorem config_zero_set (env : Env) (NCPU : Nat) (cfg_file events : Option CStr) (st : Plugin)
    (h : (config env NCPU cfg_file events st).rc = 0) :
    (config env NCPU cfg_file events st).st.set.isSome = true := by
  unfold config at h ⊢
  split_ifs at h ⊢ with h1 h2
  · exact absurd h (show EINVAL ≠ 0 by decide)
  · exact absurd h (show EINVAL ≠ 0 by decide)
  · cases hb : env.base_config with
    | error e =>
      rw [hb] at h
      have := e.pos
      dsimp only at h
      omega
    | ok b =>
      rw [hb] at h
      dsimp only at h ⊢
      split_ifs at h ⊢ with h3 h4 h5
      · exact absurd h h3
      · exact absurd h h4
      · exact absurd h h5
      · dsimp only at h ⊢
        obtain ⟨schema, _, _, _, hset⟩ := create_metric_set_zero env _ h
        rw [hset]
        rfl

/-- A successful configure call with a file (events `F`) and an inline list
`S` on a plugin without a set: the file's events are registered first, then
the segments of `S`, and the counters get consecutive column indices after
the base schema's columns. -/
theorem config_zero_registry (env : Env) (NCPU : Nat) (path S : CStr) (st : Plugin)
    (json : json_entity) (F : List CStr) (hload : env.json_load path = .ok json)
    (hev : json_attr_find json EVENTS_KEY = some (.list (F.map json_entity.str)))
    (h : (config env NCPU (some path) (some S) st).rc = 0) :
    ∃ schema, env.base_schema_new = .ok schema ∧
      (config env NCPU (some path) (some S) st).st.metric_offset = schema.length ∧
      (config env NCPU (some path) (some S) st).st.mlist.map (fun m => m.papi_name)
        = st.mlist.map (fun m => m.papi_name) ++ (F ++ segments S).map snprintf_buf ∧
      (config env NCPU (some path) (some S) st).st.mlist.map (fun m => m.midx)
        = (List.range' schema.length
            (st.mlist.length + (F.length + (segments S).length))).map Int.ofNat := by
  unfold config at h ⊢
  split_ifs at h ⊢ with h1 h2
  · exact absurd h (show EINVAL ≠ 0 by decide)
  · simp at h2
  · cases hb : env.base_config with
    | error e =>
      rw [hb] at h
      have := e.pos
      dsimp only at h
      omega
    | ok b =>
      rw [hb] at h
      dsimp only at h ⊢
      split_ifs at h ⊢ with h3 h4 h5
      · exact absurd h h3
      · exact absurd h h4
      · exact absurd h h5
      · dsimp only at h ⊢
        have h3' := not_not.mp h3
        have h4' := not_not.mp h4
        obtain ⟨f1, _⟩ := handle_cfg_file_zero env NCPU path _ json F hload hev h3'
        have f2 := populate_mlist_zero env NCPU S _ h4'
        dsimp only at f1
        obtain ⟨schema, g1, g2, g3, _⟩ := create_metric_set_zero env _ h
        refine ⟨schema, g1, g2, ?_, ?_⟩
        · rw [create_metric_set_map (fun m => m.papi_name) (fun _ _ => rfl)]
          dsimp only
          unfold syspapi_open
          rw [open_loop_map (fun m => m.papi_name) (fun _ _ => rfl), List.nil_append, f2, f1]
          have hcomp : ((fun m => m.papi_name) ∘ new_metric env NCPU) = snprintf_buf :=
            funext (new_metric_papi_name env NCPU)
          simp [hcomp]
        · rw [g3]
          dsimp only
          have hlen := congrArg List.length
            (open_loop_map (fun m => m.papi_name) (fun _ _ => rfl) env NCPU
              (populate_mlist env NCPU S
                (handle_cfg_file env NCPU path
                  { set := st.set, mlist := st.mlist, metric_offset := st.metric_offset,
                    base := some b }).2.mlist).2 0 [])
          simp only [List.length_map, List.nil_append] at hlen
          unfold syspapi_open
          rw [hlen, f2, f1]
          simp [Nat.add_assoc]

/-! ## Lemmas: a pass over absent handles -/

theorem sample_cpus_absent (rd : Nat → ReadOutcome) (m : syspapi_metric_s) (is : List Nat)
    (h : ∀ i ∈ is, pfd_at m.pfd i < 0) :
    sample_cpus rd m is = is.map (fun i => SampleEv.array_set_u64 m.midx i 0) := by
  induction is with
  | nil => rfl
  | cons i is ih =>
    unfold sample_cpus
    have hi : ¬ (0 ≤ pfd_at m.pfd i) := by
      have := h i (List.mem_cons_self _ _)
      omega
    rw [if_neg hi, ih (fun j hj => h j (List.mem_cons_of_mem _ hj))]
    rfl

theorem writes_map_set (midx : Int) (is : List Nat) :
    writes (is.map (fun i => SampleEv.array_set_u64 midx i 0)) = is.map (fun i => (midx, i, 0)) := by
  induction is with
  | nil => rfl
  | cons i is ih => simp [writes, ih]

theorem reads_map_set (midx : Int) (is : List Nat) :
    reads (is.map (fun i => SampleEv.array_set_u64 midx i 0)) = [] := by
  induction is with
  | nil => rfl
  | cons i is ih => simp [reads, ih]

/-- Over counters without an open handle, a pass reads nothing and writes
zero at every position. -/
theorem sample_loop_absent (env : Env) (NCPU : Nat) (ms : List syspapi_metric_s)
    (h : ∀ m ∈ ms, ∀ i, i < NCPU → pfd_at m.pfd i < 0) :
    ∀ c : Nat, reads (sample_loop env NCPU c ms) = [] ∧
      writes (sample_loop env NCPU c ms)
        = ms.flatMap (fun m => (List.range NCPU).map (fun i => (m.midx, i, 0))) := by
  induction ms with
  | nil => intro c; exact ⟨rfl, rfl⟩
  | cons m ms ih =>
    intro c
    obtain ⟨g1, g2⟩ := ih (fun a ha => h a (List.mem_cons_of_mem _ ha)) (c + 1)
    have hm := sample_cpus_absent (env.read c) m (List.range NCPU)
      (fun i hi => h m (List.mem_cons_self _ _) i (List.mem_range.mp hi))
    simp only [sample_loop, reads_append, writes_append, hm, g1, g2, reads_map_set,
      writes_map_set, List.flatMap_cons, List.append_nil, and_self]

/-! ## Lemmas: a pass without `EMFILE` -/

/-- An attempted index holds what its own call returned. -/
theorem open_cpus_entry (perf : Nat → OpenOutcome) (is : List Nat) :
    ∀ (pfd : List Int), is.Nodup → ∀ i ∈ (open_cpus perf is pfd).tried, i < pfd.length →
      (open_cpus perf is pfd).pfd[i]? = some (open_ret (perf i)) := by
  induction is with
  | nil => intro pfd _ i hi; cases hi
  | cons a as ih =>
    intro pfd hnd i hi hlt
    have hnd' := (List.nodup_cons.mp hnd).2
    have ha := (List.nodup_cons.mp hnd).1
    unfold open_cpus at hi ⊢
    split at hi
    · next n hn =>
      simp only at hi ⊢
      rcases List.mem_cons.mp hi with rfl | h
      · rw [open_cpus_frame perf as _ i ha, List.getElem?_set_self hlt, hn]
        rfl
      · exact ih _ hnd' i h (by rw [List.length_set]; exact hlt)
    · next e he =>
      by_cases hem : (e.code : Int) = EMFILE
      · rw [if_pos hem] at hi ⊢
        simp only [List.mem_singleton] at hi
        subst hi
        simp only
        rw [List.getElem?_set_self hlt, he]
        rfl
      · rw [if_neg hem] at hi ⊢
        simp only at hi ⊢
        rcases List.mem_cons.mp hi with rfl | h
        · rw [open_cpus_frame perf as _ i ha, List.getElem?_set_self hlt, he]
          rfl
        · exact ih _ hnd' i h (by rw [List.length_set]; exact hlt)

theorem open_ret_nonneg_iff (o : OpenOutcome) : 0 ≤ open_ret o ↔ ∃ n, o = .fd n := by
  cases o with
  | fd n => simp [open_ret]
  | fail e => simp [open_ret]

theorem open_ret_fail (o : OpenOutcome) (h : ¬ ∃ n, o = .fd n) : open_ret o = -1 := by
  cases o with
  | fd n => exact absurd ⟨n, rfl⟩ h
  | fail e => rfl

/-- A pass that returns zero leaves the visited counters followed by each
remaining counter after its own turn. -/
theorem open_loop_zero (env : Env) (NCPU : Nat) (todo : List syspapi_metric_s) :
    ∀ (c : Nat) (done : List syspapi_metric_s),
      (syspapi_open_loop env NCPU c done todo).rc = 0 →
      (syspapi_open_loop env NCPU c done todo).mlist
          = done ++ (todo.enumFrom c).map (fun cm => opened_metric env NCPU cm.1 cm.2) ∧
        ∀ cm ∈ todo.enumFrom c, cm.2.init_rc = 0 →
          (open_cpus (env.perf_event_open cm.1) (List.range NCPU) cm.2.pfd).tried
            = List.range NCPU := by
  induction todo with
  | nil =>
    intro c done _
    exact ⟨by simp [syspapi_open_loop], fun cm hcm => by cases hcm⟩
  | cons m todo ih =>
    intro c done
    unfold syspapi_open_loop
    by_cases hrc : m.init_rc = 0
    · rw [if_neg (not_not.mpr hrc)]
      dsimp only
      rcases open_cpus_spec (env.perf_event_open c) (List.range NCPU) m.pfd with
        ⟨h1, h2, _⟩ | ⟨h1, _⟩
      · rw [h1]
        dsimp only
        intro hz
        obtain ⟨g1, g2⟩ := ih (c + 1) _ hz
        constructor
        · rw [g1, List.enumFrom_cons, List.map_cons, List.append_assoc]
          simp [opened_metric, hrc]
        · intro cm hcm hcm0
          rw [List.enumFrom_cons] at hcm
          rcases List.mem_cons.mp hcm with rfl | h
          · exact h2
          · exact g2 cm h hcm0
      · rw [h1]
        dsimp only
        intro hz
        exact absurd hz (by decide)
    · rw [if_pos hrc]
      intro hz
      obtain ⟨g1, g2⟩ := ih (c + 1) _ hz
      constructor
      · rw [g1, List.enumFrom_cons, List.map_cons, List.append_assoc]
        simp [opened_metric, hrc]
      · intro cm hcm hcm0
        rw [List.enumFrom_cons] at hcm
        rcases List.mem_cons.mp hcm with rfl | h
        · exact absurd hcm0 hrc
        · exact g2 cm h hcm0

theorem enumFrom_getElem? {α : Type} (l : List α) :
    ∀ (c k : Nat) (a : α), l[k]? = some a → (l.enumFrom c)[k]? = some (c + k, a) := by
  induction l with
  | nil => intro c k a h; simp at h
  | cons x xs ih =>
    intro c k a h
    cases k with
    | zero =>
      simp only [List.getElem?_cons_zero, Option.some.injEq] at h
      subst h
      simp
    | succ k =>
      simp only [List.getElem?_cons_succ] at h
      rw [List.enumFrom_cons, List.getElem?_cons_succ, ih (c + 1) k a h]
      congr 2
      omega

/-! ## Claims -/

/-- C1 (as stated, refuted): with a base schema of three columns, the single
registered counter is stored column index 3, not its position 0. -/
theorem C1_midx_differs_from_position :
    (create_metric_set env_ok st_registered).1 = 0 ∧
      (create_metric_set env_ok st_registered).2.mlist.map (fun m => m.midx) = [3] ∧
      (create_metric_set env_ok st_registered).2.mlist.map (fun m => m.midx)
        ≠ (List.range (create_metric_set env_ok st_registered).2.mlist.length).map Int.ofNat := by
  decide

/-- C1 (amended): when `create_metric_set` succeeds, the registry holds the
same counters in the same order, `metric_offset` is the number of columns of
the base schema, and the column index stored on each counter is
`metric_offset` plus the counter's 0-based position in the registry. -/
theorem C1_midx_is_offset_plus_position (env : Env) (st : Plugin)
    (h : (create_metric_set env st).1 = 0) :
    (create_metric_set env st).2.mlist.map (fun m => m.papi_name)
        = st.mlist.map (fun m => m.papi_name) ∧
      (∃ schema, env.base_schema_new = .ok schema ∧
        (create_metric_set env st).2.metric_offset = schema.length) ∧
      ∀ (k : Nat) (m : syspapi_metric_s), (create_metric_set env st).2.mlist[k]? = some m →
        m.midx = (create_metric_set env st).2.metric_offset + k := by
  obtain ⟨schema, g1, g2, g3, _⟩ := create_metric_set_zero env st h
  refine ⟨create_metric_set_map (fun m => m.papi_name) (fun _ _ => rfl) env st,
    ⟨schema, g1, g2⟩, ?_⟩
  intro k m hk
  have hm : ((create_metric_set env st).2.mlist.map (fun m => m.midx))[k]? = some m.midx := by
    rw [List.getElem?_map, hk]
    rfl
  rw [g3, List.getElem?_map] at hm
  have hlt : k < st.mlist.length := by
    by_contra hge
    rw [List.getElem?_eq_none (by simp only [List.length_range']; omega)] at hm
    cases hm
  rw [List.getElem?_range' _ _ hlt] at hm
  simp only [Option.map_some', Option.some.injEq] at hm
  rw [g2, ← hm]
  simp

/-- C1, at a concrete input: one counter registered, a base schema of three columns. -/
theorem C1_midx_is_offset_plus_position_witness :
    (create_metric_set env_ok st_registered).1 = 0 ∧
      ∀ (k : Nat) (m : syspapi_metric_s),
        (create_metric_set env_ok st_registered).2.mlist[k]? = some m →
        m.midx = (create_metric_set env_ok st_registered).2.metric_offset + k :=
  ⟨by decide, (C1_midx_is_offset_plus_position env_ok st_registered (by decide)).2.2⟩

/-- C2 (as stated, refuted): with inline events `A,B` and a file listing `C`
on a fresh plugin, configure succeeds with the registry `[C, A, B]` and the
column indices `3, 4, 5` (the base schema has three columns), not `[A, B, C]`
with `0, 1, 2`. -/
theorem C2_file_events_registered_first :
    (config env_ok 2 (some ['f']) (some ['A', ',', 'B']) st_fresh).rc = 0 ∧
      (config env_ok 2 (some ['f']) (some ['A', ',', 'B']) st_fresh).st.mlist.map
        (fun m => m.papi_name) = [['C'], ['A'], ['B']] ∧
      (config env_ok 2 (some ['f']) (some ['A', ',', 'B']) st_fresh).st.mlist.map
        (fun m => m.midx) = [3, 4, 5] ∧
      (config env_ok 2 (some ['f']) (some ['A', ',', 'B']) st_fresh).st.mlist.map
        (fun m => m.papi_name) ≠ [['A'], ['B'], ['C']] ∧
      (config env_ok 2 (some ['f']) (some ['A', ',', 'B']) st_fresh).st.mlist.map
        (fun m => m.midx) ≠ [0, 1, 2] := by
  decide

/-- C2 (amended): a successful configure call on a fresh plugin given the
inline events `A,B` and a file whose events list is `["C"]` leaves the
registry names `[C, A, B]` (file first), with column indices `metric_offset`,
`metric_offset + 1`, `metric_offset + 2`, where `metric_offset` is the number
of columns of the base schema. -/
theorem C2_file_then_inline_order (env : Env) (NCPU : Nat) (path : CStr) (json : json_entity)
    (hload : env.json_load path = .ok json)
    (hev : json_attr_find json EVENTS_KEY = some (.list [.str ['C']]))
    (h : (config env NCPU (some path) (some ['A', ',', 'B']) st_fresh).rc = 0) :
    (config env NCPU (some path) (some ['A', ',', 'B']) st_fresh).st.mlist.map
        (fun m => m.papi_name) = [['C'], ['A'], ['B']] ∧
      (∃ schema, env.base_schema_new = .ok schema ∧
        (config env NCPU (some path) (some ['A', ',', 'B']) st_fresh).st.metric_offset
          = schema.length) ∧
      (config env NCPU (some path) (some ['A', ',', 'B']) st_fresh).st.mlist.map
        (fun m => m.midx)
        = [(config env NCPU (some path) (some ['A', ',', 'B']) st_fresh).st.metric_offset,
           (config env NCPU (some path) (some ['A', ',', 'B']) st_fresh).st.metric_offset + 1,
           (config env NCPU (some path) (some ['A', ',', 'B']) st_fresh).st.metric_offset + 2] := by
  obtain ⟨schema, g1, g2, g3, g4⟩ :=
    config_zero_registry env NCPU path ['A', ',', 'B'] st_fresh json [['C']] hload hev h
  have hseg : segments ['A', ',', 'B'] = [['A'], ['B']] := by decide
  refine ⟨?_, ⟨schema, g1, g2⟩, ?_⟩
  · rw [g3, hseg]
    decide
  · rw [g4, g2, hseg]
    simp only [st_fresh, List.length_nil, List.length_cons, List.range', List.map_cons,
      List.map_nil, Int.ofNat_eq_coe]
    norm_num
    omega

/-- C2, at a concrete input: the file lists `C`, the inline string is `A,B`. -/
theorem C2_file_then_inline_order_witness :
    (config env_ok 2 (some ['f']) (some ['A', ',', 'B']) st_fresh).rc = 0 ∧
      (config env_ok 2 (some ['f']) (some ['A', ',', 'B']) st_fresh).st.mlist.map
        (fun m => m.papi_name) = [['C'], ['A'], ['B']] :=
  ⟨by decide,
    (C2_file_then_inline_order env_ok 2 ['f'] (.dict [(EVENTS_KEY, .list [.str ['C']])])
      rfl rfl (by decide)).1⟩

/-- C3 (as stated, refuted): a file event of 256 `char`s is registered under
its first 255 `char`s, so the registry's names are not the file's events
followed by the inline segments. -/
theorem C3_long_file_event_is_cut :
    (config env_long_file 1 (some ['f']) (some ['B']) st_fresh).rc = 0 ∧
      (config env_long_file 1 (some ['f']) (some ['B']) st_fresh).st.mlist.map
        (fun m => m.papi_name) ≠ [long_name] ++ segments ['B'] := by
  have hrc : (config env_long_file 1 (some ['f']) (some ['B']) st_fresh).rc = 0 := by
    set_option maxRecDepth 100000 in decide
  refine ⟨hrc, ?_⟩
  obtain ⟨_, _, _, g3, _⟩ := config_zero_registry env_long_file 1 ['f'] ['B'] st_fresh
    (.dict [(EVENTS_KEY, .list [.str long_name])]) [long_name] rfl rfl hrc
  rw [g3]
  intro heq
  have hlen := congrArg (fun l => (l.headD []).length) heq
  simp only [st_fresh, List.map_nil, List.nil_append, List.cons_append, List.map_cons,
    List.headD_cons] at hlen
  have := snprintf_buf_length long_name
  rw [hlen, long_name_length] at this
  exact absurd this (by decide)

/-- C3 (amended): a successful configure call on a fresh plugin with a file
whose events list is `F` (all strings) and an inline events string `S` leaves
a registry whose names are the events of `F` followed by the non-empty
comma-separated segments of `S`, each cut to its first 255 `char`s (so
unchanged when shorter than 256); nothing is dropped or de-duplicated: the
registry has `|F|` plus the number of segments entries. -/
theorem C3_file_then_inline_additive (env : Env) (NCPU : Nat) (path S : CStr)
    (json : json_entity) (F : List CStr) (hload : env.json_load path = .ok json)
    (hev : json_attr_find json EVENTS_KEY = some (.list (F.map json_entity.str)))
    (h : (config env NCPU (some path) (some S) st_fresh).rc = 0) :
    (config env NCPU (some path) (some S) st_fresh).st.mlist.map (fun m => m.papi_name)
        = (F ++ segments S).map snprintf_buf ∧
      (config env NCPU (some path) (some S) st_fresh).st.mlist.length
        = F.length + (segments S).length ∧
      ((∀ t ∈ F ++ segments S, t.length < NAME_BUF) →
        (config env NCPU (some path) (some S) st_fresh).st.mlist.map (fun m => m.papi_name)
          = F ++ segments S) := by
  obtain ⟨schema, _, _, g3, g4⟩ :=
    config_zero_registry env NCPU path S st_fresh json F hload hev h
  have hnames : (config env NCPU (some path) (some S) st_fresh).st.mlist.map
      (fun m => m.papi_name) = (F ++ segments S).map snprintf_buf := by
    rw [g3]
    rfl
  refine ⟨hnames, ?_, ?_⟩
  · have := congrArg List.length hnames
    simpa using this
  · intro hshort
    rw [hnames]
    conv_rhs => rw [← List.map_id (F ++ segments S)]
    apply List.map_congr_left
    intro t ht
    exact snprintf_buf_short t (hshort t ht)

/-- C3, at a concrete input: the file lists `C`, the inline string is `,C,,B`. -/
theorem C3_file_then_inline_additive_witness :
    (config env_ok 2 (some ['f']) (some [',', 'C', ',', ',', 'B']) st_fresh).rc = 0 ∧
      (config env_ok 2 (some ['f']) (some [',', 'C', ',', ',', 'B']) st_fresh).st.mlist.length
        = [['C']].length + (segments [',', 'C', ',', ',', 'B']).length :=
  ⟨by decide,
    (C3_file_then_inline_additive env_ok 2 ['f'] [',', 'C', ',', ',', 'B']
      (.dict [(EVENTS_KEY, .list [.str ['C']])]) [['C']] rfl rfl (by decide)).2.1⟩

/-- C4 (code defect, evaluated): a name of 256 `char`s is registered with
`init_rc = ENAMETOOLONG`, yet `syspapi_metric_init` returns before it resets
the descriptor array, so both entries stay `0` as `calloc` left them: they are
not negative after registration nor after the acquisition pass (which makes no
attempt for this counter), and a sample pass calls `read` on descriptor 0 for
both CPUs and writes the values read, not 0. -/
theorem C4_long_name_keeps_descriptor_zero :
    (syspapi_metric_add env_ok 2 long_name []).2.map (fun m => (m.init_rc, m.pfd))
        = [(ENAMETOOLONG, [0, 0])] ∧
      (config env_ok 2 none (some long_name) st_fresh).rc = 0 ∧
      (config env_ok 2 none (some long_name) st_fresh).attempts = [] ∧
      (config env_ok 2 none (some long_name) st_fresh).st.mlist.map (fun m => (m.init_rc, m.pfd))
        = [(ENAMETOOLONG, [0, 0])] ∧
      reads (sample env_ok 2 (config env_ok 2 none (some long_name) st_fresh).st).2 = [0, 0] ∧
      writes (sample env_ok 2 (config env_ok 2 none (some long_name) st_fresh).st).2
        = [(3, 0, 1), (3, 1, 257)] := by
  set_option maxRecDepth 100000 in decide

/-- C5: on a registry whose descriptor arrays have `NCPU` entries, when some
open attempt of the pass fails with `EMFILE`, `syspapi_open` returns `EMFILE`,
the attempts it made are the pairs of the resolved counters in order up to
and including the first one that fails with `EMFILE`, every `pfd` entry of
every counter is negative on return, and every descriptor obtained during
the pass has been passed to `close`. -/
theorem C5_emfile_closes_everything (env : Env) (NCPU : Nat) (mlist : List syspapi_metric_s)
    (hwf : ∀ m ∈ mlist, m.pfd.length = NCPU)
    (hem : ∃ p ∈ open_pairs NCPU 0 mlist, is_emfile (env.perf_event_open p.1 p.2) = true) :
    (syspapi_open env NCPU mlist).rc = EMFILE ∧
      (∃ pre p post, open_pairs NCPU 0 mlist = pre ++ p :: post ∧
        (syspapi_open env NCPU mlist).attempts = pre ++ [p] ∧
        is_emfile (env.perf_event_open p.1 p.2) = true ∧
        ∀ q ∈ pre, is_emfile (env.perf_event_open q.1 q.2) = false) ∧
      (syspapi_open env NCPU mlist).mlist.map (fun m => m.papi_name)
        = mlist.map (fun m => m.papi_name) ∧
      (∀ m ∈ (syspapi_open env NCPU mlist).mlist, ∀ x ∈ m.pfd, x < 0) ∧
      (∀ p ∈ (syspapi_open env NCPU mlist).attempts, ∀ n,
        env.perf_event_open p.1 p.2 = .fd n → (n : Int) ∈ (syspapi_open env NCPU mlist).closed) := by
  unfold syspapi_open
  obtain ⟨p, hp, hpe⟩ := hem
  rcases open_loop_spec env NCPU mlist 0 [] with ⟨_, _, _, h4⟩ | ⟨h1, h2⟩
  · rw [h4 p hp] at hpe
    cases hpe
  · have hne : (syspapi_open_loop env NCPU 0 [] mlist).rc ≠ 0 := by
      rw [h1]
      decide
    obtain ⟨g1, _, g3⟩ := open_loop_abort env NCPU mlist 0 [] (by simpa using hwf) hne
    refine ⟨h1, h2, ?_, g1, g3⟩
    rw [open_loop_map (fun m => m.papi_name) (fun _ _ => rfl), List.nil_append]

/-- C5, at a concrete input: two resolved counters on two CPUs, the third attempt fails with `EMFILE`. -/
theorem C5_emfile_closes_everything_witness :
    (syspapi_open env_emfile 2 [metric_A, metric_A]).rc = EMFILE ∧
      (syspapi_open env_emfile 2 [metric_A, metric_A]).attempts = [(0, 0), (0, 1), (1, 0)] ∧
      (syspapi_open env_emfile 2 [metric_A, metric_A]).closed = [10, 11] ∧
      ∀ m ∈ (syspapi_open env_emfile 2 [metric_A, metric_A]).mlist, ∀ x ∈ m.pfd, x < 0 :=
  ⟨by decide, by decide, by decide,
    (C5_emfile_closes_everything env_emfile 2 [metric_A, metric_A] (by decide)
      ⟨(1, 0), by decide, by decide⟩).2.2.2.1⟩

/-- C6: on an initialized plugin, a sample pass makes exactly one write per
(counter, CPU) pair, counters in registry order and CPUs in increasing order,
each to the counter's column index and that CPU index; the value is the one
read when the handle is present and 0 when it is absent; `read` is called on
the present handles and on no other; over a registry without any open handle
the pass reads nothing and writes 0 at every position. -/
theorem C6_sample_pass_writes (env : Env) (NCPU : Nat) (st : Plugin)
    (h : st.set.isSome = true) :
    writes (sample env NCPU st).2
        = st.mlist.enum.flatMap
            (fun cm => (List.range NCPU).map (owed_write env cm.1 cm.2)) ∧
      reads (sample env NCPU st).2
        = st.mlist.flatMap (fun m =>
            ((List.range NCPU).filter (fun i => decide (0 ≤ pfd_at m.pfd i))).map
              (pfd_at m.pfd)) ∧
      ((∀ m ∈ st.mlist, ∀ i, i < NCPU → pfd_at m.pfd i < 0) →
        reads (sample env NCPU st).2 = [] ∧
        writes (sample env NCPU st).2
          = st.mlist.flatMap (fun m => (List.range NCPU).map (fun i => (m.midx, i, 0)))) := by
  obtain ⟨_, hw, hr⟩ := sample_initialized env NCPU st h
  rw [hw, hr]
  refine ⟨?_, reads_sample_loop env NCPU st.mlist 0, fun habs => ?_⟩
  · rw [writes_sample_loop]
    rfl
  · exact sample_loop_absent env NCPU st.mlist habs 0

/-- C6, at a concrete input: one counter with both handles open. -/
theorem C6_sample_pass_writes_witness :
    st_one.set.isSome = true ∧
      writes (sample env_ok 2 st_one).2 = [(0, 0, 1), (0, 1, 257)] ∧
      reads (sample env_ok 2 st_one).2 = [5, 6] ∧
      reads (sample env_ok 2 st_one).2
        = st_one.mlist.flatMap (fun m =>
            ((List.range 2).filter (fun i => decide (0 ≤ pfd_at m.pfd i))).map (pfd_at m.pfd)) :=
  ⟨by decide, by decide, by decide, (C6_sample_pass_writes env_ok 2 st_one (by decide)).2.1⟩

/-- C7 (as stated, refuted): a short read that delivers the single byte 1 on
an open handle leaves 1, not 0, as the value written at that position. -/
theorem C7_short_read_value_is_written :
    env_bad_read.read 0 0 = .data [1] ∧ pfd_at [5, 6] 0 = 5 ∧
      (sample env_bad_read 2 st_one).1 = 0 ∧
      writes (sample env_bad_read 2 st_one).2 = [(0, 0, 1), (0, 1, 0)] := by
  decide

/-- C7 (amended): on an initialized plugin `sample` returns 0 and writes every
position of the pass whatever the reads do; for an open handle whose read
fails with an OS error the value written at its position is exactly 0; for a
read that delivers bytes (a short read included) the value written is that of
the zeroed buffer holding the delivered bytes, which is 0 exactly when every
stored byte is 0. -/
theorem C7_failed_read_tolerated (env : Env) (NCPU : Nat) (st : Plugin)
    (h : st.set.isSome = true) :
    (sample env NCPU st).1 = 0 ∧
      (writes (sample env NCPU st).2).length = st.mlist.length * NCPU ∧
      ∀ (c i : Nat) (m : syspapi_metric_s), st.mlist[c]? = some m → i < NCPU →
        0 ≤ pfd_at m.pfd i →
        (∀ e, env.read c i = .err e →
          (writes (sample env NCPU st).2)[c * NCPU + i]? = some (m.midx, i, 0)) ∧
        (∀ bytes, env.read c i = .data bytes →
          (writes (sample env NCPU st).2)[c * NCPU + i]? = some (m.midx, i, buffer_value bytes) ∧
          (buffer_value bytes = 0 ↔ ∀ b ∈ bytes.take 8, b % 256 = 0)) := by
  obtain ⟨hrc, hw, _⟩ := sample_initialized env NCPU st h
  rw [hw]
  refine ⟨hrc, writes_sample_loop_length env NCPU st.mlist 0, ?_⟩
  intro c i m hm hi hpos
  have hget := writes_sample_loop_get env NCPU st.mlist 0 c i m hm hi
  rw [Nat.zero_add] at hget
  constructor
  · intro e he
    rw [hget]
    simp [owed_write, hpos, he, value_after_read]
  · intro bytes hb
    refine ⟨?_, buffer_value_zero_iff bytes⟩
    rw [hget]
    simp [owed_write, hpos, hb, value_after_read]

/-- C7, at a concrete input: a short read on CPU 0, an OS error on CPU 1. -/
theorem C7_failed_read_tolerated_witness :
    st_one.set.isSome = true ∧ (sample env_bad_read 2 st_one).1 = 0 ∧
      (writes (sample env_bad_read 2 st_one).2).length = st_one.mlist.length * 2 :=
  ⟨by decide, (C7_failed_read_tolerated env_bad_read 2 st_one (by decide)).1,
    (C7_failed_read_tolerated env_bad_read 2 st_one (by decide)).2.1⟩

/-- C8 (as stated, refuted): a configure call that ran the acquisition pass
and then failed to create the schema leaves no set, and the next configure
call is accepted: it returns 0, registers a second counter and opens handles. -/
theorem C8_failed_configure_not_final :
    (config env_no_schema 1 none (some ['A']) st_fresh).rc = 12 ∧
      (config env_no_schema 1 none (some ['A']) st_fresh).attempts = [(0, 0)] ∧
      (config env_ok 1 none (some ['B'])
        (config env_no_schema 1 none (some ['A']) st_fresh).st).rc = 0 ∧
      (config env_ok 1 none (some ['B'])
        (config env_no_schema 1 none (some ['A']) st_fresh).st).st.mlist.map
          (fun m => m.papi_name) = [['A'], ['B']] ∧
      (config env_ok 1 none (some ['B'])
        (config env_no_schema 1 none (some ['A']) st_fresh).st).attempts = [(0, 0), (1, 0)] := by
  decide

/-- C8 (amended): after a configure call that returned 0 (it ran the
acquisition pass and created the set), every later configure call, with any
arguments and environment, returns `EINVAL`, leaves the plugin state (registry
and handle table included) unchanged, and makes no open attempt. -/
theorem C8_configured_rejects_reconfigure (env env2 : Env) (NCPU : Nat)
    (cfg_file events cfg_file2 events2 : Option CStr) (st : Plugin)
    (h : (config env NCPU cfg_file events st).rc = 0) :
    config env2 NCPU cfg_file2 events2 (config env NCPU cfg_file events st).st
      = { rc := EINVAL, st := (config env NCPU cfg_file events st).st,
          attempts := [], closed := [] } :=
  config_rejects env2 NCPU cfg_file2 events2 _ (config_zero_set env NCPU cfg_file events st h)

/-- C8, at a concrete input: a second configure call after a successful one. -/
theorem C8_configured_rejects_reconfigure_witness :
    (config env_ok 1 none (some ['A']) st_fresh).rc = 0 ∧
      (config env_ok 1 none (some ['B']) (config env_ok 1 none (some ['A']) st_fresh).st).rc
        = EINVAL :=
  ⟨by decide,
    congrArg ConfigResult.rc
      (C8_configured_rejects_reconfigure env_ok env_ok 1 none (some ['A']) none (some ['B'])
        st_fresh (by decide))⟩

/-- C9 (as stated, refuted): a segment of 256 `char`s is registered under its
first 255 `char`s, so the new counter's name is not its segment. -/
theorem C9_long_segment_is_cut :
    segments long_name = [long_name] ∧
      (populate_mlist env_ok 1 long_name []).1 = 0 ∧
      (populate_mlist env_ok 1 long_name []).2.map (fun m => m.papi_name) ≠ segments long_name := by
  have hseg : segments long_name = [long_name] := by
    apply segments_comma_free
    · intro hnil
      have := congrArg List.length hnil
      rw [long_name_length] at this
      cases this
    · intro c hc
      rw [List.eq_of_mem_replicate hc]
      decide
  have hpop := populate_mlist_alloc env_ok 1 long_name [] (fun _ => rfl)
  refine ⟨hseg, by rw [hpop], ?_⟩
  rw [hpop, hseg]
  intro heq
  have hlen := congrArg (fun l => (l.headD []).length) heq
  simp only [List.nil_append, List.map_cons, List.headD_cons, new_metric_papi_name] at hlen
  have := snprintf_buf_length long_name
  rw [hlen, long_name_length] at this
  exact absurd this (by decide)

/-- C9 (amended): when every allocation succeeds, `populate_mlist` returns 0
and leaves the prior registry followed by one new counter per non-empty
maximal comma-free segment of the string, in left-to-right order (empty
segments register nothing, repeated names are registered again); each new
counter's name is its segment cut to its first 255 `char`s, hence the segment
itself whenever the segment is shorter than 256 `char`s. -/
theorem C9_populate_mlist_segments (env : Env) (NCPU : Nat) (S : CStr)
    (R : List syspapi_metric_s) (halloc : ∀ n, env.calloc_ok n = true) :
    (populate_mlist env NCPU S R).1 = 0 ∧
      ∃ added, (populate_mlist env NCPU S R).2 = R ++ added ∧
        added.length = (segments S).length ∧
        added.map (fun m => m.papi_name) = (segments S).map snprintf_buf ∧
        ((∀ t ∈ segments S, t.length < NAME_BUF) →
          added.map (fun m => m.papi_name) = segments S) := by
  rw [populate_mlist_alloc env NCPU S R halloc]
  have hnames : ((segments S).map (new_metric env NCPU)).map (fun m => m.papi_name)
      = (segments S).map snprintf_buf := by
    rw [List.map_map]
    exact congrArg (fun f => List.map f (segments S)) (funext (new_metric_papi_name env NCPU))
  refine ⟨rfl, (segments S).map (new_metric env NCPU), rfl, by simp, hnames, ?_⟩
  intro hshort
  rw [hnames]
  conv_rhs => rw [← List.map_id (segments S)]
  apply List.map_congr_left
  intro t ht
  exact snprintf_buf_short t (hshort t ht)

/-- C9, at a concrete input: the string `,A,,A,` after a registry of one counter. -/
theorem C9_populate_mlist_segments_witness :
    (∀ n, env_ok.calloc_ok n = true) ∧
      segments [',', 'A', ',', ',', 'A', ','] = [['A'], ['A']] ∧
      (populate_mlist env_ok 2 [',', 'A', ',', ',', 'A', ','] [metric_A]).2.map
        (fun m => m.papi_name) = [['A'], ['A'], ['A']] ∧
      (populate_mlist env_ok 2 [',', 'A', ',', ',', 'A', ','] [metric_A]).1 = 0 :=
  ⟨fun _ => rfl, by decide, by decide,
    (C9_populate_mlist_segments env_ok 2 [',', 'A', ',', ',', 'A', ','] [metric_A]
      (fun _ => rfl)).1⟩

/-- C10 (as stated, refuted): for a name of 256 `char`s every listed condition
holds (the name is found, its metadata is retrievable, the component is an
enabled `perf_event`, the event is native, the encoding succeeds), yet
`syspapi_metric_init` returns `ENAMETOOLONG`, not 0. -/
theorem C10_long_name_not_resolved :
    resolvable env_ok long_name ∧ encoder_rc env_ok long_name = 0 ∧
      (syspapi_metric_init env_ok 1 (calloc_metric 1) long_name).1 = ENAMETOOLONG ∧
      ¬ ((syspapi_metric_init env_ok 1 (calloc_metric 1) long_name).1 = 0 ↔
          resolvable env_ok long_name ∧ encoder_rc env_ok long_name = 0) := by
  have h : (syspapi_metric_init env_ok 1 (calloc_metric 1) long_name).1 = ENAMETOOLONG := by
    unfold syspapi_metric_init
    dsimp only
    rw [if_pos (by rw [long_name_length]; decide)]
  refine ⟨env_ok_resolvable _, rfl, h, ?_⟩
  intro hiff
  have := hiff.mpr ⟨env_ok_resolvable _, rfl⟩
  rw [h] at this
  exact absurd this (by decide)

/-- C10 (amended): `syspapi_metric_init` returns 0 if and only if the name is
shorter than 256 `char`s, it is found in the symbol table with retrievable
metadata, its component is `perf_event` and not disabled, the event is native
or a `NOT_DERIVED` preset with exactly one native event, and the encoding of
the single native event name succeeds; in every other case the code is not 0,
and when the name fits and all but the encoding holds, the code returned is
exactly the encoder's. -/
theorem C10_metric_init_resolves_iff (env : Env) (NCPU : Nat) (m : syspapi_metric_s)
    (papi_name : CStr) :
    ((syspapi_metric_init env NCPU m papi_name).1 = 0 ↔
      papi_name.length < NAME_BUF ∧ resolvable env papi_name ∧ encoder_rc env papi_name = 0) ∧
    (papi_name.length < NAME_BUF → resolvable env papi_name →
      (syspapi_metric_init env NCPU m papi_name).1 = encoder_rc env papi_name) := by
  refine ⟨⟨fun h => ?_, fun h => ?_⟩, metric_init_rc_encoder env NCPU m papi_name⟩
  · have hr := metric_init_zero_resolvable env NCPU m papi_name h
    exact ⟨hr.1, hr.2, by rw [← metric_init_rc_encoder env NCPU m papi_name hr.1 hr.2]; exact h⟩
  · rw [metric_init_rc_encoder env NCPU m papi_name h.1 h.2.1]; exact h.2.2

/-- C10, at a concrete input: the name `A` resolves in `env_ok`. -/
theorem C10_metric_init_resolves_iff_witness :
    ((['A'] : CStr).length < NAME_BUF ∧ resolvable env_ok ['A'] ∧ encoder_rc env_ok ['A'] = 0) ∧
      (syspapi_metric_init env_ok 2 (calloc_metric 2) ['A']).1 = 0 :=
  ⟨⟨by decide, env_ok_resolvable _, rfl⟩,
    (C10_metric_init_resolves_iff env_ok 2 (calloc_metric 2) ['A']).1.mpr
      ⟨by decide, env_ok_resolvable _, rfl⟩⟩

/-- C11: on a registry whose descriptor arrays have `NCPU` entries, when no
open attempt of the pass fails with `EMFILE`, `syspapi_open` returns 0 and
closes nothing; the attempts it makes are exactly the (counter, CPU) pairs of
the resolved counters, in registry order and then increasing CPU order, each
once, whatever the other attempts returned; on return the registry holds the
same counters, an unresolved counter is untouched, and the handle entry of
every such pair holds what its own attempt returned: it is open (non-negative)
if and only if that attempt succeeded, and is `-1` when it failed. -/
theorem C11_open_without_emfile (env : Env) (NCPU : Nat) (mlist : List syspapi_metric_s)
    (hwf : ∀ m ∈ mlist, m.pfd.length = NCPU)
    (hno : ∀ p ∈ open_pairs NCPU 0 mlist, is_emfile (env.perf_event_open p.1 p.2) = false) :
    (syspapi_open env NCPU mlist).rc = 0 ∧
      (syspapi_open env NCPU mlist).attempts = open_pairs NCPU 0 mlist ∧
      (syspapi_open env NCPU mlist).attempts.Nodup ∧
      (syspapi_open env NCPU mlist).closed = [] ∧
      (syspapi_open env NCPU mlist).mlist.map (fun m => (m.papi_name, m.init_rc))
        = mlist.map (fun m => (m.papi_name, m.init_rc)) ∧
      ∀ (c : Nat) (m : syspapi_metric_s), mlist[c]? = some m →
        (m.init_rc ≠ 0 → (syspapi_open env NCPU mlist).mlist[c]? = some m) ∧
        (m.init_rc = 0 → ∃ m2, (syspapi_open env NCPU mlist).mlist[c]? = some m2 ∧
          ∀ i, i < NCPU →
            pfd_at m2.pfd i = open_ret (env.perf_event_open c i) ∧
            (0 ≤ pfd_at m2.pfd i ↔ ∃ n, env.perf_event_open c i = .fd n) ∧
            ((¬ ∃ n, env.perf_event_open c i = .fd n) → pfd_at m2.pfd i = -1)) := by
  unfold syspapi_open
  rcases open_loop_spec env NCPU mlist 0 [] with ⟨h1, h2, h3, _⟩ | ⟨_, pre, p, post, h2, _, h4, _⟩
  swap
  · have := hno p (by rw [h2]; simp)
    rw [h4] at this
    cases this
  obtain ⟨g1, g2⟩ := open_loop_zero env NCPU mlist 0 [] h1
  have hnd : (open_pairs NCPU 0 mlist).Nodup := by
    have key : ∀ (l : List syspapi_metric_s) (c : Nat),
        (open_pairs NCPU c l).Nodup ∧ ∀ p ∈ open_pairs NCPU c l, c ≤ p.1 := by
      intro l
      induction l with
      | nil => intro c; exact ⟨List.nodup_nil, fun p hp => by cases hp⟩
      | cons a as ih =>
        intro c
        obtain ⟨i1, i2⟩ := ih (c + 1)
        unfold open_pairs
        have hhead : (if a.init_rc = 0 then (List.range NCPU).map (fun i => (c, i)) else []).Nodup
            ∧ ∀ p ∈ (if a.init_rc = 0 then (List.range NCPU).map (fun i => (c, i)) else []),
              p.1 = c := by
          split_ifs
          · constructor
            · exact (List.nodup_range NCPU).map (fun x y hxy => (Prod.mk.inj hxy).2)
            · intro p hp
              obtain ⟨i, _, rfl⟩ := List.mem_map.mp hp
              rfl
          · exact ⟨List.nodup_nil, fun p hp => by cases hp⟩
        constructor
        · refine List.Nodup.append hhead.1 i1 ?_
          intro p hp1 hp2
          have e1 := hhead.2 p hp1
          have e2 := i2 p hp2
          omega
        · intro p hp
          rcases List.mem_append.mp hp with h | h
          · exact le_of_eq (hhead.2 p h).symm
          · have := i2 p h
            omega
    exact (key mlist 0).1
  refine ⟨h1, h2, by rw [h2]; exact hnd, h3, ?_, ?_⟩
  · rw [open_loop_map (fun m => (m.papi_name, m.init_rc)) (fun _ _ => rfl), List.nil_append]
  · intro c m hm
    have hen := enumFrom_getElem? mlist 0 c m hm
    rw [Nat.zero_add] at hen
    have hget : (syspapi_open_loop env NCPU 0 [] mlist).mlist[c]?
        = some (opened_metric env NCPU c m) := by
      rw [g1, List.nil_append, List.getElem?_map, hen]
      rfl
    constructor
    · intro hne
      rw [hget]
      simp [opened_metric, hne]
    · intro hz
      refine ⟨opened_metric env NCPU c m, hget, ?_⟩
      intro i hi
      have hmem : (c, m) ∈ mlist.enumFrom 0 := List.mem_iff_getElem?.mpr ⟨c, hen⟩
      have htried := g2 (c, m) hmem hz
      have hlen : m.pfd.length = NCPU := hwf m (List.mem_iff_getElem?.mpr ⟨c, hm⟩)
      have hentry := open_cpus_entry (env.perf_event_open c) (List.range NCPU) m.pfd
        (List.nodup_range NCPU) i (by rw [htried]; exact List.mem_range.mpr hi)
        (by rw [hlen]; exact hi)
      have hval : pfd_at (opened_metric env NCPU c m).pfd i
          = open_ret (env.perf_event_open c i) := by
        apply pfd_at_of_getElem?
        simp only [opened_metric, hz, ne_eq, not_true_eq_false, if_false]
        exact hentry
      refine ⟨hval, ?_, ?_⟩
      · rw [hval]
        exact open_ret_nonneg_iff _
      · intro hfail
        rw [hval]
        exact open_ret_fail _ hfail

/-- C11, at a concrete input: two resolved counters on two CPUs, the second
attempt fails with `EACCES`. -/
theorem C11_open_without_emfile_witness :
    (syspapi_open env_eacces 2 [metric_A, metric_A]).rc = 0 ∧
      (syspapi_open env_eacces 2 [metric_A, metric_A]).attempts
        = [(0, 0), (0, 1), (1, 0), (1, 1)] ∧
      (syspapi_open env_eacces 2 [metric_A, metric_A]).mlist.map (fun m => m.pfd)
        = [[10, -1], [14, 15]] ∧
      (syspapi_open env_eacces 2 [metric_A, metric_A]).closed = [] :=
  ⟨(C11_open_without_emfile env_eacces 2 [metric_A, metric_A] (by decide) (by decide)).1,
    by decide, by decide, by decide⟩

end Syspapi
